import Mathlib

/-!
# Shallow embedding of the `ipfixrw` IPFIX codec (`src/src/lib.rs`, `src/src/util.rs`)

Bytes are `Nat` values `< 256`; multi-byte integers are big-endian, as in the
source (`#[brw(big)]`).  A `Reader` models a `binrw` stream: the full byte list,
the absolute position, and an exclusive read limit `lim` imposed by
`take_seek` wrappers (`until_limit` in `src/src/util.rs`).  Reads past
`min lim data.length` fail with `RErr.eof`, mirroring `UnexpectedEof`.

The `until_eof` combinator of `binrw` (used for `Message.sets` and, through
`until_limit`, for every record list) parses items until an item fails with an
EOF error; that partial item is discarded and the loop ends successfully.  The
loops carry an explicit `fuel` argument because the source's loop has no
structural termination measure (a data record over an empty template consumes
no bytes); `RErr.fuel` marks fuel exhaustion and stands for divergence of the
source: a run that returns `RErr.fuel` for every fuel does not terminate.

Rust machine integers are modelled as `Nat` with explicit truncation `% 256^n`
where the writers narrow values; signed integers use two's complement
conversions to `Int`.  `f32`/`f64` are carried as their raw big-endian bit
patterns (`from_be_bytes`/`to_be_bytes` are bit-exact, so this is faithful for
the byte-level codec).  Rust `String` is carried as its UTF-8 byte list, with
an executable UTF-8 validity check standing for `String::from_utf8`.
`HashMap` (the template store and `DataRecord.values`) is modelled as an
association list with `HashMap::insert` semantics (replace if present, else
append).
-/

set_option maxRecDepth 10000
set_option autoImplicit false

namespace Ipfix

/-- A byte stream reader: full data, absolute position, exclusive limit. -/
structure Reader where
  data : List Nat
  pos : Nat
  lim : Nat
deriving Repr, DecidableEq

/-- Read-side errors, mirroring the `binrw::Error` cases this crate produces. -/
inductive RErr where
  /-- `UnexpectedEof` from the underlying stream or a `take_seek` limit. -/
  | eof
  /-- Fuel exhaustion of the embedding's loop counter (divergence marker). -/
  | fuel
  /-- `binrw::Error::BadMagic` at a position (the `magic = 10u16` check). -/
  | badMagic (pos : Nat)
  /-- `binrw::Error::AssertFail { pos, message }`. -/
  | assertFail (pos : Nat) (message : String)
  /-- `binrw::Error::Custom { pos, .. }` (the UTF-8 error of `String` reads). -/
  | custom (pos : Nat)
deriving Repr, DecidableEq

/-- Bytes actually available to read through the current `take_seek` nesting. -/
def Reader.avail (r : Reader) : Nat := min r.lim r.data.length

/-- Read exactly `n` bytes (Rust `read_exact` semantics: all or `Eof`). -/
def readBytesR (n : Nat) (r : Reader) : Except RErr (List Nat × Reader) :=
  if r.pos + n ≤ r.avail then
    .ok ((r.data.drop r.pos).take n, { r with pos := r.pos + n })
  else .error .eof

/-- Big-endian value of a byte list. -/
def beNat (bs : List Nat) : Nat := bs.foldl (fun a b => a * 256 + b) 0

/-- Big-endian encoding of `v` on `n` bytes (truncates to `v % 256 ^ n`). -/
def writeBE : Nat → Nat → List Nat
  | 0, _ => []
  | n + 1, v => writeBE n (v / 256) ++ [v % 256]

/-- Read an `n`-byte big-endian unsigned integer (`u8`/`u16`/`u32`/`u64`/`u128`). -/
def readBE (n : Nat) (r : Reader) : Except RErr (Nat × Reader) :=
  (readBytesR n r).map fun p => (beNat p.1, p.2)

/-- Two's-complement interpretation of a `w`-bit pattern (Rust `i8..i64` reads). -/
def fromTwos (w : Nat) (v : Nat) : Int :=
  if v < 2 ^ (w - 1) then (v : Int) else (v : Int) - (2 ^ w : Nat)

/-- Two's-complement `w`-bit pattern of an integer (Rust `i8..i64` writes). -/
def toTwos (w : Nat) (i : Int) : Nat := (i % ((2 ^ w : Nat) : Int)).toNat

/-- `binrw` `until_eof`: parse items until one fails with EOF; the partial item
is discarded (its consumed bytes restored) and the loop returns what it has.
Any other error propagates.  `fuel` is the embedding's termination counter. -/
def untilEof {α : Type} : Nat → (Reader → Except RErr (α × Reader)) → Reader →
    Except RErr (List α × Reader)
  | 0, _, _ => .error .fuel
  | fuel + 1, f, r =>
    match f r with
    | .ok (x, r') =>
      match untilEof fuel f r' with
      | .ok (xs, r'') => .ok (x :: xs, r'')
      | .error e => .error e
    | .error .eof => .ok ([], r)
    | .error e => .error e

/-- `until_eof` threading a state (the template store mutated by set parsing). -/
def untilEofSt {α σ : Type} : Nat → (σ → Reader → Except RErr (α × σ × Reader)) → σ → Reader →
    Except RErr (List α × σ × Reader)
  | 0, _, _, _ => .error .fuel
  | fuel + 1, f, st, r =>
    match f st r with
    | .ok (x, st', r') =>
      match untilEofSt fuel f st' r' with
      | .ok (xs, st'', r'') => .ok (x :: xs, st'', r'')
      | .error e => .error e
    | .error .eof => .ok ([], st, r)
    | .error e => .error e

/-- `binrw` `count`: parse exactly `n` items. -/
def readCount {α : Type} : Nat → (Reader → Except RErr (α × Reader)) → Reader →
    Except RErr (List α × Reader)
  | 0, _, r => .ok ([], r)
  | n + 1, f, r => do
    let (x, r') ← f r
    let (xs, r'') ← readCount n f r'
    .ok (x :: xs, r'')

/-- Association-list lookup (`HashMap::get`). -/
def alGet {κ ν : Type} [DecidableEq κ] : List (κ × ν) → κ → Option ν
  | [], _ => none
  | (k, v) :: rest, key => if k = key then some v else alGet rest key

/-- Association-list insert (`HashMap::insert`): replace if present, else append. -/
def alInsert {κ ν : Type} [DecidableEq κ] : List (κ × ν) → κ → ν → List (κ × ν)
  | [], key, value => [(key, value)]
  | (k, v) :: rest, key, value =>
    if k = key then (key, value) :: rest else (k, v) :: alInsert rest key value

/-- `FieldSpecifier` (lib.rs 212-222): the three logical attributes; the raw
on-wire identifier is reconstructed by the writer. -/
structure FieldSpecifier where
  information_element_identifier : Nat
  field_length : Nat
  enterprise_number : Option Nat
deriving Repr, DecidableEq

/-- `TemplateRecord` (lib.rs 167-174); `field_count` is computed on write. -/
structure TemplateRecord where
  template_id : Nat
  field_specifiers : List FieldSpecifier
deriving Repr, DecidableEq

/-- `OptionsTemplateRecord` (lib.rs 189-198). -/
structure OptionsTemplateRecord where
  template_id : Nat
  scope_field_count : Nat
  field_specifiers : List FieldSpecifier
deriving Repr, DecidableEq

/-- `DataRecordType` (lib.rs 358-373). -/
inductive DataRecordType where
  | UnsignedInt
  | SignedInt
  | Float
  | Bool
  | MacAddress
  | Bytes
  | String
  | DateTimeSeconds
  | DateTimeMilliseconds
  | DateTimeMicroseconds
  | DateTimeNanoseconds
  | Ipv4Addr
  | Ipv6Addr
deriving Repr, DecidableEq

/-- The `derive(Debug)` rendering of a `DataRecordType` (used in the
"Invalid type/length pair" error message). -/
def tyDebug : DataRecordType → String
  | .UnsignedInt => "UnsignedInt"
  | .SignedInt => "SignedInt"
  | .Float => "Float"
  | .Bool => "Bool"
  | .MacAddress => "MacAddress"
  | .Bytes => "Bytes"
  | .String => "String"
  | .DateTimeSeconds => "DateTimeSeconds"
  | .DateTimeMilliseconds => "DateTimeMilliseconds"
  | .DateTimeMicroseconds => "DateTimeMicroseconds"
  | .DateTimeNanoseconds => "DateTimeNanoseconds"
  | .Ipv4Addr => "Ipv4Addr"
  | .Ipv6Addr => "Ipv6Addr"

/-- `DataRecordKey` (lib.rs 351-356). -/
inductive DataRecordKey where
  | Str (name : String)
  | Unrecognized (fs : FieldSpecifier)
  | Err (msg : String)
deriving Repr, DecidableEq

/-- `DataRecordValue` (lib.rs 375-417).  Unsigned values and the raw bit
patterns of `f32`/`f64` and of the addresses are `Nat`; signed values are
`Int`; `MacAddress`/`Bytes` are byte lists, and Rust `String` is carried as
its UTF-8 byte list. -/
inductive DataRecordValue where
  | U8 (v : Nat)
  | U16 (v : Nat)
  | U32 (v : Nat)
  | U64 (v : Nat)
  | I8 (v : Int)
  | I16 (v : Int)
  | I32 (v : Int)
  | I64 (v : Int)
  | F32 (bits : Nat)
  | F64 (bits : Nat)
  | Bool (b : Bool)
  | MacAddress (bytes : List Nat)
  | Bytes (bytes : List Nat)
  | String (bytes : List Nat)
  | DateTimeSeconds (v : Nat)
  | DateTimeMilliseconds (v : Nat)
  | DateTimeMicroseconds (v : Nat)
  | DateTimeNanoseconds (v : Nat)
  | Ipv4Addr (v : Nat)
  | Ipv6Addr (v : Nat)
deriving Repr, DecidableEq

/-- `DataRecord` (lib.rs 256-258): a `HashMap<DataRecordKey, DataRecordValue>`,
modelled as an association list in the order the reader inserts. -/
structure DataRecord where
  values : List (DataRecordKey × DataRecordValue)
deriving Repr, DecidableEq

/-- `Records` (lib.rs 113-131). -/
inductive Records where
  | Template (records : List TemplateRecord)
  | OptionsTemplate (records : List OptionsTemplateRecord)
  | Data (set_id : Nat) (data : List DataRecord)
deriving Repr, DecidableEq

/-- `Set` (lib.rs 85-97); `set_id` and `length` are computed on write. -/
structure Set where
  records : Records
deriving Repr, DecidableEq

/-- `Message` (lib.rs 29-39); the magic `10u16` and `length` are not stored. -/
structure Message where
  export_time : Nat
  sequence_number : Nat
  observation_domain_id : Nat
  sets : List Set
deriving Repr, DecidableEq

/-- `Templates` (lib.rs 22): the shared `HashMap<u16, Vec<FieldSpecifier>>`. -/
abbrev Templates : Type := List (Nat × List FieldSpecifier)

/-- `Formatter` (properties.rs 9): map from `(enterprise_number, information_element_identifier)`
to `(name, type)`. -/
abbrev Formatter : Type := List ((Nat × Nat) × (String × DataRecordType))

/-- `FieldSpecifier::key_and_type` (lib.rs 228-240): formatter lookup with the
`Unrecognized`/`Bytes` fallback. -/
def key_and_type (fs : FieldSpecifier) (formatter : Formatter) :
    DataRecordKey × DataRecordType :=
  match alGet formatter (fs.enterprise_number.getD 0, fs.information_element_identifier) with
  | some (name, ty) => (.Str name, ty)
  | none => (.Unrecognized fs, .Bytes)

/-- Continuation byte test of UTF-8 (`0x80..=0xBF`). -/
def isCont (b : Nat) : Bool := 128 ≤ b && b ≤ 191

/-- First bytes of two-byte UTF-8 sequences (`0xC2..=0xDF`). -/
def utf8Class2 (b : Nat) : Bool := 194 ≤ b && b ≤ 223

/-- First bytes of three-byte UTF-8 sequences (`0xE0..=0xEF`). -/
def utf8Class3 (b : Nat) : Bool :=
  b = 224 || (225 ≤ b && b ≤ 236) || b = 237 || b = 238 || b = 239

/-- First bytes of four-byte UTF-8 sequences (`0xF0..=0xF4`). -/
def utf8Class4 (b : Nat) : Bool := 240 ≤ b && b ≤ 244

/-- The admissible second byte after first byte `b` (the narrowed ranges of
`0xE0`, `0xED`, `0xF0` and `0xF4`, plain continuation otherwise). -/
def utf8C1ok (b c1 : Nat) : Bool :=
  if b = 224 then 160 ≤ c1 && c1 ≤ 191
  else if b = 237 then 128 ≤ c1 && c1 ≤ 159
  else if b = 240 then 144 ≤ c1 && c1 ≤ 191
  else if b = 244 then 128 ≤ c1 && c1 ≤ 143
  else isCont c1

/-- Executable UTF-8 validity, standing for Rust `String::from_utf8`'s check. -/
def isValidUtf8 : List Nat → Bool
  | [] => true
  | b :: r =>
    if b ≤ 127 then isValidUtf8 r
    else
      match r with
      | [] => false
      | c1 :: r1 =>
        if utf8Class2 b then utf8C1ok b c1 && isValidUtf8 r1
        else
          match r1 with
          | [] => false
          | c2 :: r2 =>
            if utf8Class3 b then utf8C1ok b c1 && isCont c2 && isValidUtf8 r2
            else
              match r2 with
              | [] => false
              | c3 :: r3 =>
                utf8Class4 b && utf8C1ok b c1 && isCont c2 && isCont c3 && isValidUtf8 r3

/-- `read_variable_length` (lib.rs 419-436): the IANA variable-length rule
when `field_length == 0xFFFF`, else exactly `field_length` bytes. -/
def read_variable_length (length : Nat) (r : Reader) : Except RErr (List Nat × Reader) :=
  if length = 65535 then
    match readBE 1 r with
    | .error e => .error e
    | .ok (var_length, r1) =>
      if var_length = 255 then
        match readBE 2 r1 with
        | .error e => .error e
        | .ok (var_length_ext, r2) => readBytesR var_length_ext r2
      else readBytesR var_length r1
  else readBytesR length r

/-- The "invalid type/length pair" failure of `DataRecordValue::read_options`
(lib.rs 502-505), carrying the current stream position. -/
def invalidPair (ty : DataRecordType) (length : Nat) (r : Reader) :
    Except RErr (DataRecordValue × Reader) :=
  .error (.assertFail r.pos
    ("Invalid type/length pair: " ++ tyDebug ty ++ " " ++ toString length))

/-- `DataRecordValue::read_options` (lib.rs 438-508): one value from the wire,
dispatching on the abstract type and the template's `field_length`. -/
def readValue (ty : DataRecordType) (length : Nat) (r : Reader) :
    Except RErr (DataRecordValue × Reader) :=
  match ty with
  | .UnsignedInt =>
    if length = 1 then (readBE 1 r).map fun p => (.U8 p.1, p.2)
    else if length = 2 then (readBE 2 r).map fun p => (.U16 p.1, p.2)
    else if length = 4 then (readBE 4 r).map fun p => (.U32 p.1, p.2)
    else if length = 8 then (readBE 8 r).map fun p => (.U64 p.1, p.2)
    else invalidPair ty length r
  | .SignedInt =>
    if length = 1 then (readBE 1 r).map fun p => (.I8 (fromTwos 8 p.1), p.2)
    else if length = 2 then (readBE 2 r).map fun p => (.I16 (fromTwos 16 p.1), p.2)
    else if length = 4 then (readBE 4 r).map fun p => (.I32 (fromTwos 32 p.1), p.2)
    else if length = 8 then (readBE 8 r).map fun p => (.I64 (fromTwos 64 p.1), p.2)
    else invalidPair ty length r
  | .Float =>
    if length = 4 then (readBE 4 r).map fun p => (.F32 p.1, p.2)
    else if length = 8 then (readBE 8 r).map fun p => (.F64 p.1, p.2)
    else invalidPair ty length r
  | .Bool =>
    if length = 1 then (readBE 1 r).map fun p => (.Bool (p.1 = 1), p.2)
    else invalidPair ty length r
  | .MacAddress =>
    if length = 6 then (readBytesR 6 r).map fun p => (.MacAddress p.1, p.2)
    else invalidPair ty length r
  | .Bytes =>
    (read_variable_length length r).map fun p => (.Bytes p.1, p.2)
  | .String =>
    match read_variable_length length r with
    | .error e => .error e
    | .ok (bs, r') =>
      if isValidUtf8 bs then .ok (.String bs, r')
      else .error (.custom r'.pos)
  | .DateTimeSeconds =>
    if length = 4 then (readBE 4 r).map fun p => (.DateTimeSeconds p.1, p.2)
    else invalidPair ty length r
  | .DateTimeMilliseconds =>
    if length = 8 then (readBE 8 r).map fun p => (.DateTimeMilliseconds p.1, p.2)
    else invalidPair ty length r
  | .DateTimeMicroseconds =>
    if length = 8 then (readBE 8 r).map fun p => (.DateTimeMicroseconds p.1, p.2)
    else invalidPair ty length r
  | .DateTimeNanoseconds =>
    if length = 8 then (readBE 8 r).map fun p => (.DateTimeNanoseconds p.1, p.2)
    else invalidPair ty length r
  | .Ipv4Addr =>
    if length = 4 then (readBE 4 r).map fun p => (.Ipv4Addr p.1, p.2)
    else invalidPair ty length r
  | .Ipv6Addr =>
    if length = 16 then (readBE 16 r).map fun p => (.Ipv6Addr p.1, p.2)
    else invalidPair ty length r

/-- The `#[binwrite]` impl for `DataRecordValue` (lib.rs 375-417).  For a
variable-length slot (`length == 0xFFFF`) `Bytes`/`String` emit the 1- or
3-byte prefix; the `try_calc` length narrowing fails when the payload exceeds
`u16::MAX`.  Fixed-length slots emit the value's own bytes. -/
def writeValue (v : DataRecordValue) (length : Nat) : Except String (List Nat) :=
  match v with
  | .U8 x => .ok (writeBE 1 x)
  | .U16 x => .ok (writeBE 2 x)
  | .U32 x => .ok (writeBE 4 x)
  | .U64 x => .ok (writeBE 8 x)
  | .I8 x => .ok (writeBE 1 (toTwos 8 x))
  | .I16 x => .ok (writeBE 2 (toTwos 16 x))
  | .I32 x => .ok (writeBE 4 (toTwos 32 x))
  | .I64 x => .ok (writeBE 8 (toTwos 64 x))
  | .F32 bits => .ok (writeBE 4 bits)
  | .F64 bits => .ok (writeBE 8 bits)
  | .Bool b => .ok [if b then 1 else 2]
  | .MacAddress bytes => .ok bytes
  | .Bytes bytes =>
    if length = 65535 then
      if bytes.length < 255 then .ok (writeBE 1 bytes.length ++ bytes)
      else if bytes.length ≤ 65535 then .ok (255 :: writeBE 2 bytes.length ++ bytes)
      else .error "TryFromIntError"
    else .ok bytes
  | .String bytes =>
    if length = 65535 then
      if bytes.length < 255 then .ok (writeBE 1 bytes.length ++ bytes)
      else if bytes.length ≤ 65535 then .ok (255 :: writeBE 2 bytes.length ++ bytes)
      else .error "TryFromIntError"
    else .ok bytes
  | .DateTimeSeconds x => .ok (writeBE 4 x)
  | .DateTimeMilliseconds x => .ok (writeBE 8 x)
  | .DateTimeMicroseconds x => .ok (writeBE 8 x)
  | .DateTimeNanoseconds x => .ok (writeBE 8 x)
  | .Ipv4Addr x => .ok (writeBE 4 x)
  | .Ipv6Addr x => .ok (writeBE 16 x)

/-- `WriteSize for DataRecordValue` (lib.rs 510-535): the byte count the
length fields assume for a value in the slot described by `field_spec`. -/
def value_write_size (v : DataRecordValue) (field_spec : FieldSpecifier) :
    Except String Nat :=
  if field_spec.field_length = 65535 then
    match (match v with
           | .Bytes bytes => some bytes.length
           | .String bytes => some bytes.length
           | _ => none) with
    | none => .error "Non variable length field!"
    | some len =>
      if len > 65535 - 3 then
        .error "Tried to determine length for a variable length element which is larger than u16::MAX - 3"
      else if len < 255 then .ok (len + 1)
      else .ok (len + 3)
  else .ok field_spec.field_length

/-- `FieldSpecifier` reader (lib.rs 212-222): raw identifier, enterprise bit
in bit 15, identifier in the low 15 bits, optional `enterprise_number`. -/
def readFieldSpecifier (r : Reader) : Except RErr (FieldSpecifier × Reader) := do
  let (raw, r1) ← readBE 2 r
  let (len, r2) ← readBE 2 r1
  if raw >>> 15 = 1 then
    let (en, r3) ← readBE 4 r2
    .ok (⟨raw &&& 32767, len, some en⟩, r3)
  else
    .ok (⟨raw &&& 32767, len, none⟩, r2)

/-- `FieldSpecifier` writer (lib.rs 213-221): emit
`information_element_identifier | (enterprise_bit << 15)`, `field_length`,
then the enterprise number when present. -/
def writeFieldSpecifier (fs : FieldSpecifier) : List Nat :=
  writeBE 2 (fs.information_element_identifier |||
      (if fs.enterprise_number.isSome then 1 <<< 15 else 0)) ++
    writeBE 2 fs.field_length ++
    (match fs.enterprise_number with
     | some e => writeBE 4 e
     | none => [])

/-- `WriteSize for FieldSpecifier` (lib.rs 243-252). -/
def field_specifier_write_size (fs : FieldSpecifier) : Nat :=
  4 + (match fs.enterprise_number with
       | some _ => 4
       | none => 0)

/-- `TemplateRecord` reader (lib.rs 163-174): id, count, `count` specifiers;
the struct-level assert rejects reserved template ids. -/
def readTemplateRecord (r : Reader) : Except RErr (TemplateRecord × Reader) := do
  let p0 := r.pos
  let (tid, r1) ← readBE 2 r
  let (cnt, r2) ← readBE 2 r1
  let (fss, r3) ← readCount cnt readFieldSpecifier r2
  if 255 < tid then .ok (⟨tid, fss⟩, r3)
  else .error (.assertFail p0
    ("Template IDs 0-255 are reserved [template_id: " ++ toString tid ++ "]"))

/-- `TemplateRecord` writer (lib.rs 167-174): `field_count` is `try_calc`'d
from the list length (fails beyond `u16`). -/
def writeTemplateRecord (t : TemplateRecord) : Except String (List Nat) :=
  if t.field_specifiers.length ≤ 65535 then
    .ok (writeBE 2 t.template_id ++ writeBE 2 t.field_specifiers.length ++
      (t.field_specifiers.map writeFieldSpecifier).flatten)
  else .error "TryFromIntError"

/-- `OptionsTemplateRecord` reader (lib.rs 185-198). -/
def readOptionsTemplateRecord (r : Reader) : Except RErr (OptionsTemplateRecord × Reader) := do
  let p0 := r.pos
  let (tid, r1) ← readBE 2 r
  let (cnt, r2) ← readBE 2 r1
  let (scope, r3) ← readBE 2 r2
  let (fss, r4) ← readCount cnt readFieldSpecifier r3
  if 255 < tid then .ok (⟨tid, scope, fss⟩, r4)
  else .error (.assertFail p0
    ("Template IDs 0-255 are reserved [template_id: " ++ toString tid ++ "]"))

/-- `OptionsTemplateRecord` writer (lib.rs 189-198). -/
def writeOptionsTemplateRecord (t : OptionsTemplateRecord) : Except String (List Nat) :=
  if t.field_specifiers.length ≤ 65535 then
    .ok (writeBE 2 t.template_id ++ writeBE 2 t.field_specifiers.length ++
      writeBE 2 t.scope_field_count ++ (t.field_specifiers.map writeFieldSpecifier).flatten)
  else .error "TryFromIntError"

/-- `WriteSize for TemplateRecord` (lib.rs 176-182). -/
def template_record_write_size (t : TemplateRecord) : Nat :=
  4 + (t.field_specifiers.map field_specifier_write_size).sum

/-- `WriteSize for OptionsTemplateRecord` (lib.rs 200-206). -/
def options_template_record_write_size (t : OptionsTemplateRecord) : Nat :=
  6 + (t.field_specifiers.map field_specifier_write_size).sum

/-- The field loop of `DataRecord::read_options` (lib.rs 274-281): resolve
each specifier's key and type, read one value, insert into the map. -/
def readDataRecordLoop (formatter : Formatter) :
    List FieldSpecifier → List (DataRecordKey × DataRecordValue) → Reader →
    Except RErr (List (DataRecordKey × DataRecordValue) × Reader)
  | [], values, r => .ok (values, r)
  | fs :: rest, values, r =>
    match readValue (key_and_type fs formatter).2 fs.field_length r with
    | .error e => .error e
    | .ok (value, r') =>
      readDataRecordLoop formatter rest (alInsert values (key_and_type fs formatter).1 value) r'

/-- `DataRecord::read_options` (lib.rs 260-284): template lookup by the
enclosing `set_id`, failing with the missing-template assert, then the field
loop. -/
def readDataRecord (set_id : Nat) (templates : Templates) (formatter : Formatter)
    (r : Reader) : Except RErr (DataRecord × Reader) :=
  match alGet templates set_id with
  | none => .error (.assertFail r.pos ("Missing template for set id " ++ toString set_id))
  | some template =>
    match readDataRecordLoop formatter template [] r with
    | .error e => .error e
    | .ok (values, r') => .ok (⟨values⟩, r')

/-- The field loop of `DataRecord::write_options` (lib.rs 302-316): fetch the
value under each specifier's key and write it with the slot's length. -/
def writeDataRecordLoop (rec : DataRecord) (formatter : Formatter) :
    List FieldSpecifier → Except String (List Nat)
  | [] => .ok []
  | fs :: rest =>
    match alGet rec.values (key_and_type fs formatter).1 with
    | none => .error "Missing field templated in template"
    | some value =>
      match writeValue value fs.field_length with
      | .error e => .error e
      | .ok bytes =>
        match writeDataRecordLoop rec formatter rest with
        | .error e => .error e
        | .ok more => .ok (bytes ++ more)

/-- `DataRecord::write_options` (lib.rs 286-319). -/
def writeDataRecord (rec : DataRecord) (set_id : Nat) (templates : Templates)
    (formatter : Formatter) : Except String (List Nat) :=
  match alGet templates set_id with
  | none => .error ("Missing template for set id " ++ toString set_id)
  | some template => writeDataRecordLoop rec formatter template

/-- The size loop of `WriteSize for DataRecord` (lib.rs 330-345). -/
def record_write_size_loop (rec : DataRecord) (formatter : Formatter) :
    List FieldSpecifier → Except String Nat
  | [] => .ok 0
  | fs :: rest =>
    match alGet rec.values (key_and_type fs formatter).1 with
    | none => .error "Missing field templated in template"
    | some value =>
      match value_write_size value fs with
      | .error e => .error e
      | .ok n =>
        match record_write_size_loop rec formatter rest with
        | .error e => .error e
        | .ok m => .ok (n + m)

/-- `WriteSize for DataRecord` (lib.rs 321-348). -/
def record_write_size (rec : DataRecord) (set_id : Nat) (templates : Templates)
    (formatter : Formatter) : Except String Nat :=
  match alGet templates set_id with
  | none => .error ("Missing template for set id " ++ toString set_id)
  | some template => record_write_size_loop rec formatter template

/-- `insert_template_records` (lib.rs 133-138): install each parsed template
record, in order, last writer winning on id collision. -/
def insert_template_records (templates : Templates) (new_templates : List TemplateRecord) :
    Templates :=
  new_templates.foldl (fun ts t => alInsert ts t.template_id t.field_specifiers) templates

/-- `Records::set_id` (lib.rs 141-147). -/
def Records.set_id : Records → Nat
  | .Template _ => 2
  | .OptionsTemplate _ => 3
  | .Data set_id _ => set_id

/-- `Records` reader (lib.rs 108-131): variant selected by the `pre_assert`s
on `set_id`; template records are installed into the store once their vector
is parsed (the `map` on the `Template` field); options templates are NOT
installed; a reserved `set_id` fails. -/
def readRecords (fuel : Nat) (set_id : Nat) (templates : Templates) (formatter : Formatter)
    (r : Reader) : Except RErr (Records × Templates × Reader) :=
  if set_id = 2 then
    match untilEof fuel readTemplateRecord r with
    | .error e => .error e
    | .ok (rs, r') => .ok (.Template rs, insert_template_records templates rs, r')
  else if set_id = 3 then
    match untilEof fuel readOptionsTemplateRecord r with
    | .error e => .error e
    | .ok (rs, r') => .ok (.OptionsTemplate rs, templates, r')
  else if 255 < set_id then
    match untilEof fuel (readDataRecord set_id templates formatter) r with
    | .error e => .error e
    | .ok (ds, r') => .ok (.Data set_id ds, templates, r')
  else
    .error (.assertFail r.pos
      ("Set IDs 0-1 and 4-255 are reserved [set_id: " ++ toString set_id ++ "]"))

/-- Sum of elementwise write sizes.  Modelled from the spec: the `WriteSize`
impl for `Vec<T>` is imported by lib.rs from `util.rs` but absent from this
snapshot of `src/src/util.rs`; the spec's invariants "`length == 16 + Σ
set.length`" and "`length == 4 + payload_bytes`" force the elementwise sum. -/
def listWriteSize {α : Type} (ws : α → Except String Nat) : List α → Except String Nat
  | [] => .ok 0
  | x :: rest =>
    match ws x with
    | .error e => .error e
    | .ok n =>
      match listWriteSize ws rest with
      | .error e => .error e
      | .ok m => .ok (n + m)

/-- `WriteSize for Records` (lib.rs 150-160). -/
def records_write_size (records : Records) (templates : Templates) (formatter : Formatter) :
    Except String Nat :=
  match records with
  | .Template rs => listWriteSize (fun t => .ok (template_record_write_size t)) rs
  | .OptionsTemplate rs => listWriteSize (fun t => .ok (options_template_record_write_size t)) rs
  | .Data set_id data =>
    listWriteSize (fun rec => record_write_size rec set_id templates formatter) data

/-- `WriteSize for Set` (lib.rs 99-105): 4-byte set header plus payload. -/
def set_write_size (s : Set) (templates : Templates) (formatter : Formatter) :
    Except String Nat :=
  match records_write_size s.records templates formatter with
  | .error e => .error e
  | .ok n => .ok (4 + n)

/-- `WriteSize for Message` (lib.rs 41-47): 16-byte header plus sets. -/
def message_write_size (m : Message) (templates : Templates) (formatter : Formatter) :
    Except String Nat :=
  match listWriteSize (fun s => set_write_size s templates formatter) m.sets with
  | .error e => .error e
  | .ok n => .ok (16 + n)

/-- `Set` reader (lib.rs 82-97): `set_id`, `length` (assert `length > 4`),
then the records through a `take_seek` sub-reader of `length - 4` bytes. -/
def readSet (fuel : Nat) (formatter : Formatter) (templates : Templates) (r : Reader) :
    Except RErr (Set × Templates × Reader) := do
  let (set_id, r1) ← readBE 2 r
  let (length, r2) ← readBE 2 r1
  if 4 < length then
    match readRecords fuel set_id templates formatter
        { r2 with lim := min r2.lim (r2.pos + (length - 4)) } with
    | .error e => .error e
    | .ok (records, templates', r3) => .ok (⟨records⟩, templates', { r3 with lim := r2.lim })
  else .error (.assertFail r2.pos "assertion failed: length > 4")

/-- Bytes written by a list of writers, concatenated (`Vec<T>` `BinWrite`). -/
def writeList {α : Type} (w : α → Except String (List Nat)) : List α → Except String (List Nat)
  | [] => .ok []
  | x :: rest =>
    match w x with
    | .error e => .error e
    | .ok bs =>
      match writeList w rest with
      | .error e => .error e
      | .ok more => .ok (bs ++ more)

/-- `Records` writer (lib.rs 113-131). -/
def writeRecords (records : Records) (templates : Templates) (formatter : Formatter) :
    Except String (List Nat) :=
  match records with
  | .Template rs => writeList writeTemplateRecord rs
  | .OptionsTemplate rs => writeList writeOptionsTemplateRecord rs
  | .Data set_id data =>
    writeList (fun rec => writeDataRecord rec set_id templates formatter) data

/-- `Set` writer (lib.rs 85-97): `set_id` from the records variant, `length`
`try_calc`'d from `write_size`, then the payload. -/
def writeSet (s : Set) (templates : Templates) (formatter : Formatter) :
    Except String (List Nat) :=
  match set_write_size s templates formatter with
  | .error e => .error e
  | .ok size =>
    match writeRecords s.records templates formatter with
    | .error e => .error e
    | .ok payload => .ok (writeBE 2 s.records.set_id ++ writeBE 2 size ++ payload)

/-- `Message` reader (lib.rs 25-39): magic `10u16`, the header (the declared
`length` is read and discarded), then sets `until_eof`. -/
def readMessage (fuel : Nat) (templates : Templates) (formatter : Formatter) (r : Reader) :
    Except RErr (Message × Templates × Reader) := do
  let p0 := r.pos
  let (magic, r1) ← readBE 2 r
  if magic = 10 then
    let (_length, r2) ← readBE 2 r1
    let (export_time, r3) ← readBE 4 r2
    let (sequence_number, r4) ← readBE 4 r3
    let (observation_domain_id, r5) ← readBE 4 r4
    match untilEofSt fuel (fun ts rr => readSet fuel formatter ts rr) templates r5 with
    | .error e => .error e
    | .ok (sets, templates', r6) =>
      .ok (⟨export_time, sequence_number, observation_domain_id, sets⟩, templates', r6)
  else .error (.badMagic p0)

/-- `Message` writer (lib.rs 25-47): magic, `length` from `write_size`,
header fields, then the sets. -/
def writeMessage (m : Message) (templates : Templates) (formatter : Formatter) :
    Except String (List Nat) :=
  match message_write_size m templates formatter with
  | .error e => .error e
  | .ok size =>
    match writeList (fun s => writeSet s templates formatter) m.sets with
    | .error e => .error e
    | .ok payload =>
      .ok (writeBE 2 10 ++ writeBE 2 size ++ writeBE 4 m.export_time ++
        writeBE 4 m.sequence_number ++ writeBE 4 m.observation_domain_id ++ payload)

/-- Reader over a fresh byte list (a `Cursor` over the whole input). -/
def mkReader (bs : List Nat) : Reader := ⟨bs, 0, bs.length⟩

/-! ## Byte-level lemmas -/

@[simp]
theorem writeBE_length (n v : Nat) : (writeBE n v).length = n := by
  induction n generalizing v with
  | zero => rfl
  | succ n ih => simp [writeBE, ih]

theorem beNat_append_singleton (bs : List Nat) (b : Nat) :
    beNat (bs ++ [b]) = beNat bs * 256 + b := by
  simp [beNat, List.foldl_append]

theorem beNat_writeBE {n v : Nat} (h : v < 256 ^ n) : beNat (writeBE n v) = v := by
  induction n generalizing v with
  | zero =>
    simp [writeBE, beNat]
    omega
  | succ n ih =>
    have hdiv : v / 256 < 256 ^ n := by
      rw [Nat.div_lt_iff_lt_mul (by norm_num)]
      calc v < 256 ^ (n + 1) := h
        _ = 256 ^ n * 256 := by ring
    rw [writeBE, beNat_append_singleton, ih hdiv]
    omega

/-- `x ||| 2 ^ i = x + 2 ^ i` when bit `i` of `x` is clear. -/
theorem lor_two_pow_eq_add {i x : Nat} (h : x < 2 ^ i) : x ||| 2 ^ i = x + 2 ^ i := by
  apply Nat.eq_of_testBit_eq
  intro j
  rcases lt_trichotomy j i with hj | hj | hj
  · rw [Nat.testBit_lor, Nat.add_comm, Nat.testBit_two_pow_add_gt hj,
      Nat.testBit_two_pow_of_ne (Nat.ne_of_gt hj), Bool.or_false]
  · subst hj
    rw [Nat.testBit_lor, Nat.add_comm, Nat.testBit_two_pow_add_eq,
      Nat.testBit_eq_false_of_lt h, Nat.testBit_two_pow_self, Bool.false_or]
    rfl
  · have hpow : 2 ^ (i + 1) ≤ 2 ^ j := Nat.pow_le_pow_right (by norm_num) hj
    have hx : x.testBit j = false := by
      apply Nat.testBit_eq_false_of_lt
      calc x < 2 ^ i := h
        _ ≤ 2 ^ j := Nat.pow_le_pow_right (by norm_num) (Nat.le_of_lt hj)
    have hadd : (x + 2 ^ i).testBit j = false := by
      apply Nat.testBit_eq_false_of_lt
      calc x + 2 ^ i < 2 ^ i + 2 ^ i := by omega
        _ = 2 ^ (i + 1) := by ring
        _ ≤ 2 ^ j := hpow
    rw [Nat.testBit_lor, hx, hadd, Nat.testBit_two_pow_of_ne (Nat.ne_of_lt hj), Bool.or_false]

theorem land_mask15 {x : Nat} (h : x < 32768) : x &&& 32767 = x := by
  have : (32767 : Nat) = 2 ^ 15 - 1 := by norm_num
  rw [this, Nat.and_pow_two_sub_one_eq_mod, Nat.mod_eq_of_lt h]

theorem land_mask15_high {x : Nat} (h : x < 32768) : (x + 32768) &&& 32767 = x := by
  have h1 : (32767 : Nat) = 2 ^ 15 - 1 := by norm_num
  rw [h1, Nat.and_pow_two_sub_one_eq_mod]
  have : (32768 : Nat) = 2 ^ 15 := by norm_num
  omega

theorem shiftRight15_low {x : Nat} (h : x < 32768) : x >>> 15 = 0 := by
  rw [Nat.shiftRight_eq_div_pow]
  exact Nat.div_eq_of_lt (by norm_num at h ⊢; omega)

theorem shiftRight15_high {x : Nat} (h : x < 32768) : (x + 32768) >>> 15 = 1 := by
  rw [Nat.shiftRight_eq_div_pow]
  have h15 : (2 : Nat) ^ 15 = 32768 := by norm_num
  rw [h15]
  omega

/-! ## The parse-what-you-serialized relation

`ParsesExactly f bs x`: at any position and under any `take_seek` limit that
covers `bs`, the parser `f` run on `pre ++ bs ++ rest` starting at `pre.length`
succeeds with `x` and consumes exactly `bs`. -/

def ParsesExactly {α : Type} (f : Reader → Except RErr (α × Reader)) (bs : List Nat)
    (x : α) : Prop :=
  ∀ (pre rest : List Nat) (q : Nat), bs.length ≤ q →
    f ⟨pre ++ bs ++ rest, pre.length, pre.length + q⟩ =
      .ok (x, ⟨pre ++ bs ++ rest, pre.length + bs.length, pre.length + q⟩)

theorem parses_readBytesR {n : Nat} {bs : List Nat} (h : bs.length = n) :
    ParsesExactly (readBytesR n) bs bs := by
  intro pre rest q hq
  have havail : pre.length + n ≤ (Reader.avail ⟨pre ++ bs ++ rest, pre.length, pre.length + q⟩) := by
    simp only [Reader.avail]
    have hlen : (pre ++ bs ++ rest).length = pre.length + bs.length + rest.length := by
      simp; omega
    omega
  rw [readBytesR, if_pos havail]
  have hdata : ((pre ++ bs ++ rest).drop pre.length).take n = bs := by
    rw [List.append_assoc, List.drop_left, ← h, List.take_left]
  rw [hdata, h]

theorem parses_readBE {n : Nat} {bs : List Nat} (h : bs.length = n) :
    ParsesExactly (readBE n) bs (beNat bs) := by
  intro pre rest q hq
  rw [readBE, parses_readBytesR h pre rest q hq]
  rfl

theorem parses_readBE_writeBE {n v : Nat} (h : v < 256 ^ n) :
    ParsesExactly (readBE n) (writeBE n v) v := by
  have := @parses_readBE n (writeBE n v) (writeBE_length n v)
  rwa [beNat_writeBE h] at this

/-! ## Round trips of the record-level parsers -/

/-- Apply a `ParsesExactly` fact at a right-associated data split. -/
theorem pe_step {α : Type} {f : Reader → Except RErr (α × Reader)} {bs1 : List Nat} {x : α}
    (hf : ParsesExactly f bs1 x) (pre tail : List Nat) (q : Nat) (hq : bs1.length ≤ q) :
    f ⟨pre ++ (bs1 ++ tail), pre.length, pre.length + q⟩ =
      .ok (x, ⟨pre ++ (bs1 ++ tail), pre.length + bs1.length, pre.length + q⟩) := by
  have := hf pre tail q hq
  simpa [List.append_assoc] using this

/-- Apply a `ParsesExactly` fact after `bs1` has already been consumed. -/
theorem pe_step_at {α : Type} {f : Reader → Except RErr (α × Reader)} {bs2 : List Nat} {y : α}
    (hg : ParsesExactly f bs2 y) (pre bs1 tail : List Nat) (q : Nat)
    (hq : bs1.length + bs2.length ≤ q) :
    f ⟨pre ++ (bs1 ++ (bs2 ++ tail)), pre.length + bs1.length, pre.length + q⟩ =
      .ok (y, ⟨pre ++ (bs1 ++ (bs2 ++ tail)), pre.length + bs1.length + bs2.length,
        pre.length + q⟩) := by
  have := hg (pre ++ bs1) tail (q - bs1.length) (by omega)
  simp only [List.append_assoc, List.length_append] at this
  have hq2 : pre.length + (bs1.length + (q - bs1.length)) = pre.length + q := by omega
  have hp2 : pre.length + bs1.length + (q - bs1.length) = pre.length + (bs1.length + (q - bs1.length)) := by omega
  rw [hp2, hq2] at this
  simpa using this


/-- Wire-well-formedness of one field specifier. -/
def fsWire (fs : FieldSpecifier) : Bool :=
  decide (fs.information_element_identifier < 32768) &&
  decide (fs.field_length < 65536) &&
  (match fs.enterprise_number with
   | none => true
   | some e => decide (e < 2 ^ 32))

theorem parses_readFieldSpecifier {fs : FieldSpecifier} (h : fsWire fs = true) :
    ParsesExactly readFieldSpecifier (writeFieldSpecifier fs) fs := by
  obtain ⟨ie, len, en⟩ := fs
  cases en with
  | none =>
    simp only [fsWire, Bool.and_eq_true, decide_eq_true_eq] at h
    obtain ⟨⟨hie, hlen⟩, -⟩ := h
    intro pre rest q hq
    have hrw : writeFieldSpecifier ⟨ie, len, none⟩ = writeBE 2 ie ++ writeBE 2 len := by
      simp [writeFieldSpecifier]
    rw [hrw] at hq ⊢
    have hq4 : 4 ≤ q := by
      simpa [writeBE_length] using hq
    have h1 := parses_readBE_writeBE (n := 2) (v := ie) (by norm_num; omega) pre
      (writeBE 2 len ++ rest) q (by simp [writeBE_length]; omega)
    have h2 := parses_readBE_writeBE (n := 2) (v := len) (by norm_num; omega)
      (pre ++ writeBE 2 ie) rest (q - 2) (by simp [writeBE_length]; omega)
    simp only [List.append_assoc, List.length_append, writeBE_length] at h1 h2 ⊢
    have hq2 : pre.length + 2 + (q - 2) = pre.length + q := by omega
    rw [hq2] at h2
    rw [readFieldSpecifier]
    simp only [bind, Except.bind, h1, h2]
    rw [shiftRight15_low hie]
    simp only [if_neg (by decide : ¬ ((0 : Nat) = 1)), land_mask15 hie]
  | some e =>
    simp only [fsWire, Bool.and_eq_true, decide_eq_true_eq] at h
    obtain ⟨⟨hie, hlen⟩, he⟩ := h
    intro pre rest q hq
    have hlor : ie ||| 32768 = ie + 32768 := by
      have h15 : (32768 : Nat) = 2 ^ 15 := by norm_num
      rw [h15, lor_two_pow_eq_add (by norm_num; omega)]
    have hrw : writeFieldSpecifier ⟨ie, len, some e⟩ =
        writeBE 2 (ie + 32768) ++ writeBE 2 len ++ writeBE 4 e := by
      simp [writeFieldSpecifier, hlor]
    rw [hrw] at hq ⊢
    have hq8 : 8 ≤ q := by
      simpa [writeBE_length] using hq
    have h1 := parses_readBE_writeBE (n := 2) (v := ie + 32768) (by norm_num; omega) pre
      (writeBE 2 len ++ (writeBE 4 e ++ rest)) q (by simp [writeBE_length]; omega)
    have h2 := parses_readBE_writeBE (n := 2) (v := len) (by norm_num; omega)
      (pre ++ writeBE 2 (ie + 32768)) (writeBE 4 e ++ rest) (q - 2) (by simp [writeBE_length]; omega)
    have h3 := parses_readBE_writeBE (n := 4) (v := e) (by norm_num; omega)
      (pre ++ writeBE 2 (ie + 32768) ++ writeBE 2 len) rest (q - 4) (by simp [writeBE_length]; omega)
    simp only [List.append_assoc, List.length_append, writeBE_length] at h1 h2 h3 ⊢
    have hq2 : pre.length + 2 + (q - 2) = pre.length + q := by omega
    have hq3 : pre.length + (2 + 2) + (q - 4) = pre.length + q := by omega
    have hp3 : pre.length + (2 + 2) = pre.length + 2 + 2 := by omega
    rw [hq2] at h2
    rw [hq3, hp3] at h3
    rw [readFieldSpecifier]
    simp only [bind, Except.bind, h1, h2, h3]
    rw [shiftRight15_high hie]
    simp only [if_pos rfl, land_mask15_high hie]
    norm_num



theorem parses_readCount {α : Type} {f : Reader → Except RErr (α × Reader)} :
    ∀ (ps : List (α × List Nat)), (∀ p ∈ ps, ParsesExactly f p.2 p.1) →
    ParsesExactly (readCount ps.length f) ((ps.map Prod.snd).flatten) (ps.map Prod.fst)
  | [], _ => by
    intro pre rest q hq
    simp [readCount]
  | p :: ps, hall => by
    intro pre rest q hq
    have hhead : ParsesExactly f p.2 p.1 := hall p (by simp)
    have htail := parses_readCount ps (fun x hx => hall x (by simp [hx]))
    simp only [List.map_cons, List.flatten_cons, List.length_append, List.length_flatten,
      List.length_cons, List.map_map] at hq ⊢
    have h1 := pe_step hhead pre ((ps.map Prod.snd).flatten ++ rest) q (by omega)
    have h2 := pe_step_at htail pre p.2 rest q
      (by simp [List.length_flatten, List.map_map]; omega)
    rw [readCount]
    simp only [List.append_assoc] at h1 h2 ⊢
    simp only [bind, Except.bind, h1, h2]
    simp [List.length_flatten, List.map_map]
    omega

/-- Wire-well-formedness of a template record. -/
def templateRecordWire (t : TemplateRecord) : Bool :=
  decide (255 < t.template_id) && decide (t.template_id < 65536) &&
  decide (t.field_specifiers.length < 65536) && t.field_specifiers.all fsWire

theorem writeTemplateRecord_ok {t : TemplateRecord} (h : t.field_specifiers.length < 65536) :
    writeTemplateRecord t = .ok (writeBE 2 t.template_id ++ writeBE 2 t.field_specifiers.length ++
      (t.field_specifiers.map writeFieldSpecifier).flatten) := by
  rw [writeTemplateRecord, if_pos (by omega)]

theorem parses_readTemplateRecord {t : TemplateRecord} (h : templateRecordWire t = true) :
    ParsesExactly readTemplateRecord (writeBE 2 t.template_id ++
      writeBE 2 t.field_specifiers.length ++
      (t.field_specifiers.map writeFieldSpecifier).flatten) t := by
  simp only [templateRecordWire, Bool.and_eq_true, decide_eq_true_eq, List.all_eq_true] at h
  obtain ⟨⟨⟨hid1, hid2⟩, hcnt⟩, hall⟩ := h
  intro pre rest q hq
  have hps : ∀ p ∈ t.field_specifiers.map (fun fs => (fs, writeFieldSpecifier fs)),
      ParsesExactly readFieldSpecifier p.2 p.1 := by
    intro p hp
    simp only [List.mem_map] at hp
    obtain ⟨fs, hfs, rfl⟩ := hp
    exact parses_readFieldSpecifier (hall fs hfs)
  have hcount := parses_readCount (f := readFieldSpecifier)
    (t.field_specifiers.map (fun fs => (fs, writeFieldSpecifier fs))) hps
  simp only [List.map_map, List.length_map] at hcount
  have hsnd : (t.field_specifiers.map (Prod.snd ∘ fun fs => (fs, writeFieldSpecifier fs))) =
      t.field_specifiers.map writeFieldSpecifier := by
    simp [Function.comp]
  have hfst : (t.field_specifiers.map (Prod.fst ∘ fun fs => (fs, writeFieldSpecifier fs))) =
      t.field_specifiers := by
    have hcfst : (Prod.fst ∘ fun fs : FieldSpecifier => (fs, writeFieldSpecifier fs)) = id := by
      funext x
      rfl
    rw [hcfst, List.map_id]
  rw [hsnd, hfst] at hcount
  simp only [List.length_append, writeBE_length] at hq
  have h1 := pe_step (parses_readBE_writeBE (n := 2) (v := t.template_id) (by norm_num; omega)) pre
    (writeBE 2 t.field_specifiers.length ++
      ((t.field_specifiers.map writeFieldSpecifier).flatten ++ rest)) q
    (by simp only [writeBE_length]; omega)
  have h2 := pe_step_at (parses_readBE_writeBE (n := 2) (v := t.field_specifiers.length)
      (by norm_num; omega)) pre (writeBE 2 t.template_id)
    ((t.field_specifiers.map writeFieldSpecifier).flatten ++ rest) q
    (by simp only [writeBE_length]; omega)
  have h3 := pe_step_at hcount pre
    (writeBE 2 t.template_id ++ writeBE 2 t.field_specifiers.length) rest q
    (by simp only [writeBE_length, List.length_append]; omega)
  rw [readTemplateRecord]
  simp only [List.append_assoc, writeBE_length, List.length_append] at h1 h2 h3 ⊢
  simp only [bind, Except.bind, h1, h2]
  have hpos : pre.length + 2 + 2 = pre.length + (2 + 2) := by omega
  rw [hpos, h3]
  simp only [if_pos hid1]
  have hpos2 : pre.length + (2 + 2) + (t.field_specifiers.map writeFieldSpecifier).flatten.length =
      pre.length + (2 + (2 + (t.field_specifiers.map writeFieldSpecifier).flatten.length)) := by
    omega
  rw [hpos2]



/-- Wire-well-formedness of an options-template record. -/
def optionsTemplateRecordWire (t : OptionsTemplateRecord) : Bool :=
  decide (255 < t.template_id) && decide (t.template_id < 65536) &&
  decide (t.scope_field_count < 65536) &&
  decide (t.field_specifiers.length < 65536) && t.field_specifiers.all fsWire

theorem writeOptionsTemplateRecord_ok {t : OptionsTemplateRecord}
    (h : t.field_specifiers.length < 65536) :
    writeOptionsTemplateRecord t = .ok (writeBE 2 t.template_id ++
      writeBE 2 t.field_specifiers.length ++ writeBE 2 t.scope_field_count ++
      (t.field_specifiers.map writeFieldSpecifier).flatten) := by
  rw [writeOptionsTemplateRecord, if_pos (by omega)]

theorem parses_readOptionsTemplateRecord {t : OptionsTemplateRecord}
    (h : optionsTemplateRecordWire t = true) :
    ParsesExactly readOptionsTemplateRecord (writeBE 2 t.template_id ++
      writeBE 2 t.field_specifiers.length ++ writeBE 2 t.scope_field_count ++
      (t.field_specifiers.map writeFieldSpecifier).flatten) t := by
  simp only [optionsTemplateRecordWire, Bool.and_eq_true, decide_eq_true_eq,
    List.all_eq_true] at h
  obtain ⟨⟨⟨⟨hid1, hid2⟩, hscope⟩, hcnt⟩, hall⟩ := h
  intro pre rest q hq
  have hps : ∀ p ∈ t.field_specifiers.map (fun fs => (fs, writeFieldSpecifier fs)),
      ParsesExactly readFieldSpecifier p.2 p.1 := by
    intro p hp
    simp only [List.mem_map] at hp
    obtain ⟨fs, hfs, rfl⟩ := hp
    exact parses_readFieldSpecifier (hall fs hfs)
  have hcount := parses_readCount (f := readFieldSpecifier)
    (t.field_specifiers.map (fun fs => (fs, writeFieldSpecifier fs))) hps
  simp only [List.map_map, List.length_map] at hcount
  have hsnd : (t.field_specifiers.map (Prod.snd ∘ fun fs => (fs, writeFieldSpecifier fs))) =
      t.field_specifiers.map writeFieldSpecifier := by
    simp [Function.comp]
  have hfst : (t.field_specifiers.map (Prod.fst ∘ fun fs => (fs, writeFieldSpecifier fs))) =
      t.field_specifiers := by
    have hcfst : (Prod.fst ∘ fun fs : FieldSpecifier => (fs, writeFieldSpecifier fs)) = id := by
      funext x
      rfl
    rw [hcfst, List.map_id]
  rw [hsnd, hfst] at hcount
  simp only [List.length_append, writeBE_length] at hq
  have h1 := pe_step (parses_readBE_writeBE (n := 2) (v := t.template_id) (by norm_num; omega)) pre
    (writeBE 2 t.field_specifiers.length ++ (writeBE 2 t.scope_field_count ++
      ((t.field_specifiers.map writeFieldSpecifier).flatten ++ rest))) q
    (by simp only [writeBE_length]; omega)
  have h2 := pe_step_at (parses_readBE_writeBE (n := 2) (v := t.field_specifiers.length)
      (by norm_num; omega)) pre (writeBE 2 t.template_id)
    (writeBE 2 t.scope_field_count ++
      ((t.field_specifiers.map writeFieldSpecifier).flatten ++ rest)) q
    (by simp only [writeBE_length]; omega)
  have h3 := pe_step_at (parses_readBE_writeBE (n := 2) (v := t.scope_field_count)
      (by norm_num; omega)) pre (writeBE 2 t.template_id ++ writeBE 2 t.field_specifiers.length)
    ((t.field_specifiers.map writeFieldSpecifier).flatten ++ rest) q
    (by simp only [writeBE_length, List.length_append]; omega)
  have h4 := pe_step_at hcount pre
    (writeBE 2 t.template_id ++ writeBE 2 t.field_specifiers.length ++
      writeBE 2 t.scope_field_count) rest q
    (by simp only [writeBE_length, List.length_append]; omega)
  rw [readOptionsTemplateRecord]
  simp only [List.append_assoc, writeBE_length, List.length_append] at h1 h2 h3 h4 ⊢
  simp only [bind, Except.bind, h1, h2]
  have hpos : pre.length + 2 + 2 = pre.length + (2 + 2) := by omega
  rw [hpos]
  simp only [h3, bind, Except.bind]
  have hpos2 : pre.length + (2 + 2) + 2 = pre.length + (2 + (2 + 2)) := by omega
  rw [hpos2]
  simp only [h4, bind, Except.bind]
  simp only [if_pos hid1]
  have hpos3 : pre.length + (2 + (2 + 2)) +
      (t.field_specifiers.map writeFieldSpecifier).flatten.length =
      pre.length + (2 + (2 + (2 + (t.field_specifiers.map writeFieldSpecifier).flatten.length))) := by
    omega
  rw [hpos3]



theorem toTwos_lt (w : Nat) (x : Int) : toTwos w x < 2 ^ w := by
  rw [toTwos]
  generalize hM : (2 : Nat) ^ w = M
  have hMpos : 0 < M := hM ▸ Nat.pos_pow_of_pos w (by norm_num)
  have hpos : (0 : Int) < (M : Int) := by exact_mod_cast hMpos
  have hlt := Int.emod_lt_of_pos x hpos
  have h0 : 0 ≤ x % (M : Int) := Int.emod_nonneg x (by omega)
  omega

theorem fromTwos_toTwos {w : Nat} {x : Int} (h1 : -((2 ^ (w - 1) : Nat) : Int) ≤ x)
    (h2 : x < ((2 ^ (w - 1) : Nat) : Int)) (hw : 0 < w) :
    fromTwos w (toTwos w x) = x := by
  rw [toTwos, fromTwos]
  have hsplit : (2 : Nat) ^ w = 2 ^ (w - 1) * 2 := by
    rw [← pow_succ]
    congr 1
    omega
  rw [hsplit] at *
  generalize hH : (2 : Nat) ^ (w - 1) = H at *
  have hHpos : 0 < H := hH ▸ Nat.pos_pow_of_pos (w - 1) (by norm_num)
  have hM : ((H * 2 : Nat) : Int) = (H : Int) * 2 := by push_cast; ring
  rcases le_or_lt 0 x with hx | hx
  · have hxmod : x % ((H * 2 : Nat) : Int) = x := by
      apply Int.emod_eq_of_lt hx
      rw [hM]
      omega
    rw [hxmod, if_pos (by omega)]
    omega
  · have hxmod : x % ((H * 2 : Nat) : Int) = x + ((H * 2 : Nat) : Int) := by
      have hstep : (x + ((H * 2 : Nat) : Int) * 1) % ((H * 2 : Nat) : Int) =
          x % ((H * 2 : Nat) : Int) := Int.add_mul_emod_self_left x ((H * 2 : Nat) : Int) 1
      rw [mul_one] at hstep
      rw [← hstep]
      apply Int.emod_eq_of_lt
      · rw [hM]
        omega
      · rw [hM]
        omega
    rw [hxmod, if_neg (by rw [hM] at *; omega)]
    rw [hM] at *
    omega



/-- Wire agreement of a value with its slot: the abstract type's variant, the
value in range, and the byte width the slot expects. -/
def valueMatches (ty : DataRecordType) (len : Nat) (v : DataRecordValue) : Bool :=
  match ty, v with
  | .UnsignedInt, .U8 x => decide (len = 1) && decide (x < 256)
  | .UnsignedInt, .U16 x => decide (len = 2) && decide (x < 65536)
  | .UnsignedInt, .U32 x => decide (len = 4) && decide (x < 2 ^ 32)
  | .UnsignedInt, .U64 x => decide (len = 8) && decide (x < 2 ^ 64)
  | .SignedInt, .I8 x => decide (len = 1) && decide (-(128 : Int) ≤ x) && decide (x < 128)
  | .SignedInt, .I16 x => decide (len = 2) && decide (-(32768 : Int) ≤ x) && decide (x < 32768)
  | .SignedInt, .I32 x =>
    decide (len = 4) && decide (-((2 ^ 31 : Nat) : Int) ≤ x) && decide (x < ((2 ^ 31 : Nat) : Int))
  | .SignedInt, .I64 x =>
    decide (len = 8) && decide (-((2 ^ 63 : Nat) : Int) ≤ x) && decide (x < ((2 ^ 63 : Nat) : Int))
  | .Float, .F32 x => decide (len = 4) && decide (x < 2 ^ 32)
  | .Float, .F64 x => decide (len = 8) && decide (x < 2 ^ 64)
  | .Bool, .Bool _ => decide (len = 1)
  | .MacAddress, .MacAddress bytes => decide (len = 6) && decide (bytes.length = 6)
  | .Bytes, .Bytes bytes =>
    if len = 65535 then decide (bytes.length ≤ 65532)
    else decide (bytes.length = len) && decide (1 ≤ len) && decide (len < 65535)
  | .String, .String bytes =>
    isValidUtf8 bytes &&
    (if len = 65535 then decide (bytes.length ≤ 65532)
     else decide (bytes.length = len) && decide (1 ≤ len) && decide (len < 65535))
  | .DateTimeSeconds, .DateTimeSeconds x => decide (len = 4) && decide (x < 2 ^ 32)
  | .DateTimeMilliseconds, .DateTimeMilliseconds x => decide (len = 8) && decide (x < 2 ^ 64)
  | .DateTimeMicroseconds, .DateTimeMicroseconds x => decide (len = 8) && decide (x < 2 ^ 64)
  | .DateTimeNanoseconds, .DateTimeNanoseconds x => decide (len = 8) && decide (x < 2 ^ 64)
  | .Ipv4Addr, .Ipv4Addr x => decide (len = 4) && decide (x < 2 ^ 32)
  | .Ipv6Addr, .Ipv6Addr x => decide (len = 16) && decide (x < 2 ^ 128)
  | _, _ => false

theorem pe_map_readBE {m x : Nat} (hx : x < 256 ^ m) {g : Nat → DataRecordValue}
    {f : Reader → Except RErr (DataRecordValue × Reader)}
    (hf : ∀ r, f r = (readBE m r).map fun p => (g p.1, p.2)) :
    ParsesExactly f (writeBE m x) (g x) := by
  intro pre rest q hq
  rw [hf, parses_readBE_writeBE hx pre rest q hq]
  rfl

theorem parses_read_variable_length_short {payload : List Nat} (h : payload.length < 255) :
    ParsesExactly (read_variable_length 65535) (writeBE 1 payload.length ++ payload) payload := by
  intro pre rest q hq
  simp only [List.length_append, writeBE_length] at hq
  have h1 := pe_step (parses_readBE_writeBE (n := 1) (v := payload.length) (by norm_num; omega))
    pre (payload ++ rest) q (by simp only [writeBE_length]; omega)
  have h2 := pe_step_at (parses_readBytesR (n := payload.length) rfl) pre
    (writeBE 1 payload.length) rest q (by simp only [writeBE_length]; omega)
  rw [read_variable_length, if_pos rfl]
  simp only [List.append_assoc, writeBE_length, List.length_append] at h1 h2 ⊢
  simp only [h1]
  rw [if_neg (by omega)]
  rw [show pre.length + 1 + payload.length = pre.length + (1 + payload.length) by omega] at h2
  rw [h2]

theorem parses_read_variable_length_long {payload : List Nat} (h : 255 ≤ payload.length)
    (h2 : payload.length ≤ 65535) :
    ParsesExactly (read_variable_length 65535) (255 :: writeBE 2 payload.length ++ payload)
      payload := by
  intro pre rest q hq
  simp only [List.length_cons, List.length_append, writeBE_length] at hq
  have hw255 : writeBE 1 255 = [255] := by decide
  have h1 := pe_step (parses_readBE_writeBE (n := 1) (v := 255) (by norm_num)) pre
    (writeBE 2 payload.length ++ (payload ++ rest)) q (by simp only [writeBE_length]; omega)
  rw [hw255] at h1
  have hb := pe_step_at (parses_readBE_writeBE (n := 2) (v := payload.length)
    (by norm_num; omega)) pre [255] (payload ++ rest) q
    (by simp only [writeBE_length, List.length_cons, List.length_nil]; omega)
  have hc := pe_step_at (parses_readBytesR (n := payload.length) rfl) pre
    ([255] ++ writeBE 2 payload.length) rest q
    (by simp only [writeBE_length, List.length_append, List.length_cons, List.length_nil]; omega)
  rw [read_variable_length, if_pos rfl]
  simp only [List.append_assoc, writeBE_length, List.length_append, List.length_cons,
    List.length_nil, List.cons_append, List.nil_append] at h1 hb hc ⊢
  simp only [h1, if_true]
  rw [show pre.length + (0 + 1) = pre.length + 1 from by omega]
  rw [show pre.length + 1 = pre.length + 1 + 0 from by omega] at hb
  simp only [Nat.add_zero] at hb
  simp only [hb]
  rw [show pre.length + 1 + 2 = pre.length + (1 + 2) from by omega]
  rw [hc]
  simp
  omega



theorem pe_map {α β : Type} {f : Reader → Except RErr (α × Reader)} {bs : List Nat} {x : α}
    (h : ParsesExactly f bs x) {g : α → β} {f2 : Reader → Except RErr (β × Reader)}
    (hf2 : ∀ r, f2 r = (f r).map fun p => (g p.1, p.2)) :
    ParsesExactly f2 bs (g x) := by
  intro pre rest q hq
  rw [hf2, h pre rest q hq]
  rfl

theorem pe_string {len : Nat} {enc payload : List Nat}
    (hP : ParsesExactly (read_variable_length len) enc payload)
    (hutf : isValidUtf8 payload = true) :
    ParsesExactly (readValue .String len) enc (.String payload) := by
  intro pre rest q hq
  have h1 := hP pre rest q hq
  simp only [readValue, h1, hutf, if_true]

theorem parses_readValue {ty : DataRecordType} {len : Nat} {v : DataRecordValue} {bs : List Nat}
    (h : valueMatches ty len v = true) (hw : writeValue v len = .ok bs) :
    ParsesExactly (readValue ty len) bs v := by
  cases ty <;> cases v <;>
    simp only [valueMatches, Bool.and_eq_true, decide_eq_true_eq] at h <;>
    try exact absurd h (by decide)
  case UnsignedInt.U8 x =>
    obtain ⟨rfl, hx⟩ := h
    simp only [writeValue, Except.ok.injEq] at hw
    subst hw
    exact pe_map_readBE (by norm_num; omega) (fun r => rfl)
  case UnsignedInt.U16 x =>
    obtain ⟨rfl, hx⟩ := h
    simp only [writeValue, Except.ok.injEq] at hw
    subst hw
    exact pe_map_readBE (by norm_num; omega) (fun r => rfl)
  case UnsignedInt.U32 x =>
    obtain ⟨rfl, hx⟩ := h
    simp only [writeValue, Except.ok.injEq] at hw
    subst hw
    exact pe_map_readBE (by norm_num; omega) (fun r => rfl)
  case UnsignedInt.U64 x =>
    obtain ⟨rfl, hx⟩ := h
    simp only [writeValue, Except.ok.injEq] at hw
    subst hw
    exact pe_map_readBE (by norm_num; omega) (fun r => rfl)
  case SignedInt.I8 x =>
    obtain ⟨⟨rfl, hlo⟩, hhi⟩ := h
    simp only [writeValue, Except.ok.injEq] at hw
    subst hw
    have hP : ParsesExactly (readValue .SignedInt 1) (writeBE 1 (toTwos 8 x))
        (DataRecordValue.I8 (fromTwos 8 (toTwos 8 x))) :=
      pe_map_readBE (m := 1) (x := toTwos 8 x)
        (g := fun n => DataRecordValue.I8 (fromTwos 8 n))
        (by have := toTwos_lt 8 x; norm_num at this ⊢; omega) (fun r => rfl)
    have heq : fromTwos 8 (toTwos 8 x) = x :=
      fromTwos_toTwos (by push_cast; omega) (by push_cast; omega) (by norm_num)
    rw [heq] at hP
    exact hP
  case SignedInt.I16 x =>
    obtain ⟨⟨rfl, hlo⟩, hhi⟩ := h
    simp only [writeValue, Except.ok.injEq] at hw
    subst hw
    have hP : ParsesExactly (readValue .SignedInt 2) (writeBE 2 (toTwos 16 x))
        (DataRecordValue.I16 (fromTwos 16 (toTwos 16 x))) :=
      pe_map_readBE (m := 2) (x := toTwos 16 x)
        (g := fun n => DataRecordValue.I16 (fromTwos 16 n))
        (by have := toTwos_lt 16 x; norm_num at this ⊢; omega) (fun r => rfl)
    have heq : fromTwos 16 (toTwos 16 x) = x :=
      fromTwos_toTwos (by push_cast; omega) (by push_cast; omega) (by norm_num)
    rw [heq] at hP
    exact hP
  case SignedInt.I32 x =>
    obtain ⟨⟨rfl, hlo⟩, hhi⟩ := h
    simp only [writeValue, Except.ok.injEq] at hw
    subst hw
    have hP : ParsesExactly (readValue .SignedInt 4) (writeBE 4 (toTwos 32 x))
        (DataRecordValue.I32 (fromTwos 32 (toTwos 32 x))) :=
      pe_map_readBE (m := 4) (x := toTwos 32 x)
        (g := fun n => DataRecordValue.I32 (fromTwos 32 n))
        (by have := toTwos_lt 32 x; norm_num at this ⊢; omega) (fun r => rfl)
    have heq : fromTwos 32 (toTwos 32 x) = x :=
      fromTwos_toTwos (by push_cast at hlo hhi ⊢; omega)
        (by push_cast at hlo hhi ⊢; omega) (by norm_num)
    rw [heq] at hP
    exact hP
  case SignedInt.I64 x =>
    obtain ⟨⟨rfl, hlo⟩, hhi⟩ := h
    simp only [writeValue, Except.ok.injEq] at hw
    subst hw
    have hP : ParsesExactly (readValue .SignedInt 8) (writeBE 8 (toTwos 64 x))
        (DataRecordValue.I64 (fromTwos 64 (toTwos 64 x))) :=
      pe_map_readBE (m := 8) (x := toTwos 64 x)
        (g := fun n => DataRecordValue.I64 (fromTwos 64 n))
        (by have := toTwos_lt 64 x; norm_num at this ⊢; omega) (fun r => rfl)
    have heq : fromTwos 64 (toTwos 64 x) = x :=
      fromTwos_toTwos (by push_cast at hlo hhi ⊢; omega)
        (by push_cast at hlo hhi ⊢; omega) (by norm_num)
    rw [heq] at hP
    exact hP
  case Float.F32 x =>
    obtain ⟨rfl, hx⟩ := h
    simp only [writeValue, Except.ok.injEq] at hw
    subst hw
    exact pe_map_readBE (by norm_num; omega) (fun r => rfl)
  case Float.F64 x =>
    obtain ⟨rfl, hx⟩ := h
    simp only [writeValue, Except.ok.injEq] at hw
    subst hw
    exact pe_map_readBE (by norm_num; omega) (fun r => rfl)
  case Bool.Bool b =>
    subst h
    simp only [writeValue, Except.ok.injEq] at hw
    subst hw
    cases b with
    | true =>
      intro pre rest q hq
      have h1 := @parses_readBE 1 [1] rfl pre rest q (by simpa using hq)
      simp [beNat] at h1
      simp [readValue, h1, Except.map]
    | false =>
      intro pre rest q hq
      have h1 := @parses_readBE 1 [2] rfl pre rest q (by simpa using hq)
      simp [beNat] at h1
      simp [readValue, h1, Except.map]
  case MacAddress.MacAddress bytes =>
    obtain ⟨rfl, hlen⟩ := h
    simp only [writeValue, Except.ok.injEq] at hw
    subst hw
    exact pe_map (parses_readBytesR hlen) (fun r => rfl)
  case Bytes.Bytes bytes =>
    by_cases hvar : len = 65535
    · subst hvar
      rw [if_pos rfl] at h
      simp only [decide_eq_true_eq] at h
      simp only [writeValue, if_true] at hw
      by_cases hsh : bytes.length < 255
      · rw [if_pos hsh] at hw
        simp only [Except.ok.injEq] at hw
        subst hw
        exact pe_map (parses_read_variable_length_short hsh) (fun r => rfl)
      · rw [if_neg hsh, if_pos (by omega)] at hw
        simp only [Except.ok.injEq] at hw
        subst hw
        exact pe_map (parses_read_variable_length_long (by omega) (by omega)) (fun r => rfl)
    · rw [if_neg hvar] at h
      simp only [Bool.and_eq_true, decide_eq_true_eq] at h
      obtain ⟨⟨hblen, hpos⟩, hlt⟩ := h
      simp only [writeValue] at hw
      rw [if_neg hvar] at hw
      simp only [Except.ok.injEq] at hw
      subst hw
      refine pe_map (parses_readBytesR hblen) (fun r => ?_)
      simp only [readValue, read_variable_length]
      rw [if_neg hvar]
  case String.String bytes =>
    obtain ⟨hutf, h⟩ := h
    by_cases hvar : len = 65535
    · subst hvar
      rw [if_pos rfl] at h
      simp only [decide_eq_true_eq] at h
      simp only [writeValue, if_true] at hw
      by_cases hsh : bytes.length < 255
      · rw [if_pos hsh] at hw
        simp only [Except.ok.injEq] at hw
        subst hw
        exact pe_string (parses_read_variable_length_short hsh) hutf
      · rw [if_neg hsh, if_pos (by omega)] at hw
        simp only [Except.ok.injEq] at hw
        subst hw
        exact pe_string (parses_read_variable_length_long (by omega) (by omega)) hutf
    · rw [if_neg hvar] at h
      simp only [Bool.and_eq_true, decide_eq_true_eq] at h
      obtain ⟨⟨hblen, hpos⟩, hlt⟩ := h
      simp only [writeValue] at hw
      rw [if_neg hvar] at hw
      simp only [Except.ok.injEq] at hw
      subst hw
      refine pe_string (fun pre rest q hq => ?_) hutf
      rw [read_variable_length, if_neg hvar]
      exact parses_readBytesR hblen pre rest q hq
  case DateTimeSeconds.DateTimeSeconds x =>
    obtain ⟨rfl, hx⟩ := h
    simp only [writeValue, Except.ok.injEq] at hw
    subst hw
    exact pe_map_readBE (by norm_num; omega) (fun r => rfl)
  case DateTimeMilliseconds.DateTimeMilliseconds x =>
    obtain ⟨rfl, hx⟩ := h
    simp only [writeValue, Except.ok.injEq] at hw
    subst hw
    exact pe_map_readBE (by norm_num; omega) (fun r => rfl)
  case DateTimeMicroseconds.DateTimeMicroseconds x =>
    obtain ⟨rfl, hx⟩ := h
    simp only [writeValue, Except.ok.injEq] at hw
    subst hw
    exact pe_map_readBE (by norm_num; omega) (fun r => rfl)
  case DateTimeNanoseconds.DateTimeNanoseconds x =>
    obtain ⟨rfl, hx⟩ := h
    simp only [writeValue, Except.ok.injEq] at hw
    subst hw
    exact pe_map_readBE (by norm_num; omega) (fun r => rfl)
  case Ipv4Addr.Ipv4Addr x =>
    obtain ⟨rfl, hx⟩ := h
    simp only [writeValue, Except.ok.injEq] at hw
    subst hw
    exact pe_map_readBE (by norm_num; omega) (fun r => rfl)
  case Ipv6Addr.Ipv6Addr x =>
    obtain ⟨rfl, hx⟩ := h
    simp only [writeValue, Except.ok.injEq] at hw
    subst hw
    exact pe_map_readBE (by norm_num; omega) (fun r => rfl)



theorem writeValue_isOk {ty : DataRecordType} {len : Nat} {v : DataRecordValue}
    (h : valueMatches ty len v = true) : ∃ bs, writeValue v len = .ok bs := by
  cases ty <;> cases v <;>
    simp only [valueMatches, Bool.and_eq_true, decide_eq_true_eq] at h <;>
    try exact absurd h (by decide)
  case Bytes.Bytes bytes =>
    by_cases hvar : len = 65535
    · subst hvar
      rw [if_pos rfl] at h
      simp only [decide_eq_true_eq] at h
      simp only [writeValue, if_true]
      by_cases hsh : bytes.length < 255
      · exact ⟨_, by rw [if_pos hsh]⟩
      · exact ⟨_, by rw [if_neg hsh, if_pos (by omega)]⟩
    · exact ⟨_, by rw [writeValue, if_neg hvar]⟩
  case String.String bytes =>
    obtain ⟨hutf, h⟩ := h
    by_cases hvar : len = 65535
    · subst hvar
      rw [if_pos rfl] at h
      simp only [decide_eq_true_eq] at h
      simp only [writeValue, if_true]
      by_cases hsh : bytes.length < 255
      · exact ⟨_, by rw [if_pos hsh]⟩
      · exact ⟨_, by rw [if_neg hsh, if_pos (by omega)]⟩
    · exact ⟨_, by rw [writeValue, if_neg hvar]⟩
  all_goals exact ⟨_, rfl⟩

theorem value_size_of_matches {ty : DataRecordType} {len : Nat} {v : DataRecordValue}
    {bs : List Nat} (fs : FieldSpecifier) (hfs : fs.field_length = len)
    (h : valueMatches ty len v = true) (hw : writeValue v len = .ok bs) :
    value_write_size v fs = .ok bs.length := by
  cases ty <;> cases v <;>
    simp only [valueMatches, Bool.and_eq_true, decide_eq_true_eq] at h <;>
    try exact absurd h (by decide)
  case Bytes.Bytes bytes =>
    by_cases hvar : len = 65535
    · subst hvar
      rw [if_pos rfl] at h
      simp only [decide_eq_true_eq] at h
      simp only [writeValue, if_true] at hw
      rw [value_write_size, if_pos hfs]
      by_cases hsh : bytes.length < 255
      · rw [if_pos hsh] at hw
        simp only [Except.ok.injEq] at hw
        subst hw
        rw [if_neg (by omega), if_pos hsh]
        simp [writeBE_length]
        omega
      · rw [if_neg hsh, if_pos (by omega)] at hw
        simp only [Except.ok.injEq] at hw
        subst hw
        rw [if_neg (by omega), if_neg (by omega)]
        simp [writeBE_length]
        omega
    · rw [if_neg hvar] at h
      simp only [Bool.and_eq_true, decide_eq_true_eq] at h
      obtain ⟨⟨hblen, hpos⟩, hlt⟩ := h
      simp only [writeValue] at hw
      rw [if_neg hvar] at hw
      simp only [Except.ok.injEq] at hw
      subst hw
      rw [value_write_size, if_neg (by omega), hfs, hblen]
  case String.String bytes =>
    obtain ⟨hutf, h⟩ := h
    by_cases hvar : len = 65535
    · subst hvar
      rw [if_pos rfl] at h
      simp only [decide_eq_true_eq] at h
      simp only [writeValue, if_true] at hw
      rw [value_write_size, if_pos hfs]
      by_cases hsh : bytes.length < 255
      · rw [if_pos hsh] at hw
        simp only [Except.ok.injEq] at hw
        subst hw
        rw [if_neg (by omega), if_pos hsh]
        simp [writeBE_length]
        omega
      · rw [if_neg hsh, if_pos (by omega)] at hw
        simp only [Except.ok.injEq] at hw
        subst hw
        rw [if_neg (by omega), if_neg (by omega)]
        simp [writeBE_length]
        omega
    · rw [if_neg hvar] at h
      simp only [Bool.and_eq_true, decide_eq_true_eq] at h
      obtain ⟨⟨hblen, hpos⟩, hlt⟩ := h
      simp only [writeValue] at hw
      rw [if_neg hvar] at hw
      simp only [Except.ok.injEq] at hw
      subst hw
      rw [value_write_size, if_neg (by omega), hfs, hblen]
  case UnsignedInt.U8 x =>
    obtain ⟨h1, -⟩ := h
    subst h1
    simp only [writeValue, Except.ok.injEq] at hw
    subst hw
    simp [value_write_size, hfs, writeBE_length]
  case UnsignedInt.U16 x =>
    obtain ⟨h1, -⟩ := h
    subst h1
    simp only [writeValue, Except.ok.injEq] at hw
    subst hw
    simp [value_write_size, hfs, writeBE_length]
  case UnsignedInt.U32 x =>
    obtain ⟨h1, -⟩ := h
    subst h1
    simp only [writeValue, Except.ok.injEq] at hw
    subst hw
    simp [value_write_size, hfs, writeBE_length]
  case UnsignedInt.U64 x =>
    obtain ⟨h1, -⟩ := h
    subst h1
    simp only [writeValue, Except.ok.injEq] at hw
    subst hw
    simp [value_write_size, hfs, writeBE_length]
  case Float.F32 x =>
    obtain ⟨h1, -⟩ := h
    subst h1
    simp only [writeValue, Except.ok.injEq] at hw
    subst hw
    simp [value_write_size, hfs, writeBE_length]
  case Float.F64 x =>
    obtain ⟨h1, -⟩ := h
    subst h1
    simp only [writeValue, Except.ok.injEq] at hw
    subst hw
    simp [value_write_size, hfs, writeBE_length]
  case DateTimeSeconds.DateTimeSeconds x =>
    obtain ⟨h1, -⟩ := h
    subst h1
    simp only [writeValue, Except.ok.injEq] at hw
    subst hw
    simp [value_write_size, hfs, writeBE_length]
  case DateTimeMilliseconds.DateTimeMilliseconds x =>
    obtain ⟨h1, -⟩ := h
    subst h1
    simp only [writeValue, Except.ok.injEq] at hw
    subst hw
    simp [value_write_size, hfs, writeBE_length]
  case DateTimeMicroseconds.DateTimeMicroseconds x =>
    obtain ⟨h1, -⟩ := h
    subst h1
    simp only [writeValue, Except.ok.injEq] at hw
    subst hw
    simp [value_write_size, hfs, writeBE_length]
  case DateTimeNanoseconds.DateTimeNanoseconds x =>
    obtain ⟨h1, -⟩ := h
    subst h1
    simp only [writeValue, Except.ok.injEq] at hw
    subst hw
    simp [value_write_size, hfs, writeBE_length]
  case Ipv4Addr.Ipv4Addr x =>
    obtain ⟨h1, -⟩ := h
    subst h1
    simp only [writeValue, Except.ok.injEq] at hw
    subst hw
    simp [value_write_size, hfs, writeBE_length]
  case Ipv6Addr.Ipv6Addr x =>
    obtain ⟨h1, -⟩ := h
    subst h1
    simp only [writeValue, Except.ok.injEq] at hw
    subst hw
    simp [value_write_size, hfs, writeBE_length]
  case SignedInt.I8 x =>
    obtain ⟨⟨h1, -⟩, -⟩ := h
    subst h1
    simp only [writeValue, Except.ok.injEq] at hw
    subst hw
    simp [value_write_size, hfs, writeBE_length]
  case SignedInt.I16 x =>
    obtain ⟨⟨h1, -⟩, -⟩ := h
    subst h1
    simp only [writeValue, Except.ok.injEq] at hw
    subst hw
    simp [value_write_size, hfs, writeBE_length]
  case SignedInt.I32 x =>
    obtain ⟨⟨h1, -⟩, -⟩ := h
    subst h1
    simp only [writeValue, Except.ok.injEq] at hw
    subst hw
    simp [value_write_size, hfs, writeBE_length]
  case SignedInt.I64 x =>
    obtain ⟨⟨h1, -⟩, -⟩ := h
    subst h1
    simp only [writeValue, Except.ok.injEq] at hw
    subst hw
    simp [value_write_size, hfs, writeBE_length]
  case MacAddress.MacAddress bytes =>
    obtain ⟨h1, h2⟩ := h
    subst h1
    simp only [writeValue, Except.ok.injEq] at hw
    subst hw
    simp [value_write_size, hfs, h2]
  case Bool.Bool b =>
    subst h
    simp only [writeValue, Except.ok.injEq] at hw
    subst hw
    simp [value_write_size, hfs]



theorem readBytesR_exhausted {n : Nat} (hn : 0 < n) {r : Reader} (hr : r.avail ≤ r.pos) :
    readBytesR n r = .error .eof := by
  rw [readBytesR, if_neg (by omega)]

theorem readBE_exhausted {n : Nat} (hn : 0 < n) {r : Reader} (hr : r.avail ≤ r.pos) :
    readBE n r = .error .eof := by
  rw [readBE, readBytesR_exhausted hn hr]
  rfl

theorem readValue_exhausted {ty : DataRecordType} {len : Nat} {v : DataRecordValue}
    (h : valueMatches ty len v = true) {r : Reader} (hr : r.avail ≤ r.pos) :
    readValue ty len r = .error .eof := by
  cases ty <;> cases v <;>
    simp only [valueMatches, Bool.and_eq_true, decide_eq_true_eq] at h <;>
    try exact absurd h (by decide)
  case Bool.Bool b =>
    subst h
    simp [readValue, Except.map, readBE_exhausted (n := 1) (by norm_num) hr]
  case MacAddress.MacAddress bytes =>
    obtain ⟨h1, -⟩ := h
    subst h1
    simp [readValue, Except.map, readBytesR_exhausted (n := 6) (by norm_num) hr]
  case Bytes.Bytes bytes =>
    by_cases hvar : len = 65535
    · subst hvar
      simp [readValue, Except.map, read_variable_length, readBE_exhausted (n := 1) (by norm_num) hr]
    · rw [if_neg hvar] at h
      simp only [Bool.and_eq_true, decide_eq_true_eq] at h
      obtain ⟨⟨hblen, hpos⟩, hlt⟩ := h
      simp [readValue, Except.map, read_variable_length, if_neg hvar,
        readBytesR_exhausted (n := len) (by omega) hr]
  case String.String bytes =>
    obtain ⟨hutf, h⟩ := h
    by_cases hvar : len = 65535
    · subst hvar
      simp [readValue, Except.map, read_variable_length, readBE_exhausted (n := 1) (by norm_num) hr]
    · rw [if_neg hvar] at h
      simp only [Bool.and_eq_true, decide_eq_true_eq] at h
      obtain ⟨⟨hblen, hpos⟩, hlt⟩ := h
      simp [readValue, Except.map, read_variable_length, if_neg hvar,
        readBytesR_exhausted (n := len) (by omega) hr]
  case SignedInt.I8 x =>
    obtain ⟨⟨h1, -⟩, -⟩ := h
    subst h1
    simp [readValue, Except.map, readBE_exhausted (n := 1) (by norm_num) hr]
  case SignedInt.I16 x =>
    obtain ⟨⟨h1, -⟩, -⟩ := h
    subst h1
    simp [readValue, Except.map, readBE_exhausted (n := 2) (by norm_num) hr]
  case SignedInt.I32 x =>
    obtain ⟨⟨h1, -⟩, -⟩ := h
    subst h1
    simp [readValue, Except.map, readBE_exhausted (n := 4) (by norm_num) hr]
  case SignedInt.I64 x =>
    obtain ⟨⟨h1, -⟩, -⟩ := h
    subst h1
    simp [readValue, Except.map, readBE_exhausted (n := 8) (by norm_num) hr]
  all_goals (
    obtain ⟨h1, -⟩ := h
    subst h1
    simp [readValue, Except.map, readBE_exhausted (n := 1) (by norm_num) hr,
      readBE_exhausted (n := 2) (by norm_num) hr, readBE_exhausted (n := 4) (by norm_num) hr,
      readBE_exhausted (n := 8) (by norm_num) hr, readBE_exhausted (n := 16) (by norm_num) hr])



theorem alGet_append_none {κ ν : Type} [DecidableEq κ] {l1 : List (κ × ν)} (l2 : List (κ × ν))
    {k : κ} (h1 : alGet l1 k = none) : alGet (l1 ++ l2) k = alGet l2 k := by
  induction l1 with
  | nil => simp
  | cons p l1 ih =>
    rw [alGet] at h1
    by_cases hk : p.1 = k
    · rw [if_pos hk] at h1
      exact absurd h1 (by simp)
    · rw [if_neg hk] at h1
      simpa [alGet, if_neg hk] using ih h1

theorem alInsert_of_get_none {κ ν : Type} [DecidableEq κ] {l : List (κ × ν)} {k : κ} (v : ν)
    (h : alGet l k = none) : alInsert l k v = l ++ [(k, v)] := by
  induction l with
  | nil => rfl
  | cons p l ih =>
    rw [alGet] at h
    by_cases hk : p.1 = k
    · rw [if_pos hk] at h
      exact absurd h (by simp)
    · rw [if_neg hk] at h
      simp [alInsert, if_neg hk, ih h]

/-- Keys distinct, expressed through `alGet` on the tail. -/
def nodupKeys {κ ν : Type} [DecidableEq κ] : List (κ × ν) → Bool
  | [] => true
  | (k, _) :: rest => (alGet rest k).isNone && nodupKeys rest

/-- The per-field agreement of a record's value list with a template's
specifier list under a formatter (keys in template order, values matching the
resolved type and the slot width). -/
def recMatchesLoop (formatter : Formatter) :
    List FieldSpecifier → List (DataRecordKey × DataRecordValue) → Bool
  | [], [] => true
  | fs :: specs, (k, v) :: kvs =>
    decide (k = (key_and_type fs formatter).1) &&
    valueMatches (key_and_type fs formatter).2 fs.field_length v &&
    recMatchesLoop formatter specs kvs
  | _, [] => false
  | [], _ => false

theorem alGet_none_forall {κ ν : Type} [DecidableEq κ] {l : List (κ × ν)} {k : κ}
    (h : alGet l k = none) : ∀ p ∈ l, p.1 ≠ k := by
  induction l with
  | nil => simp
  | cons p' l ih =>
    rw [alGet] at h
    by_cases hk : p'.1 = k
    · rw [if_pos hk] at h
      exact absurd h (by simp)
    · rw [if_neg hk] at h
      intro p hp
      rcases List.mem_cons.mp hp with rfl | hp'
      · exact hk
      · exact ih h p hp'

theorem record_roundtrip {fmt : Formatter} (rec : DataRecord) :
    ∀ (specs : List FieldSpecifier) (kvs : List (DataRecordKey × DataRecordValue)),
    recMatchesLoop fmt specs kvs = true →
    nodupKeys kvs = true →
    (∀ p ∈ kvs, alGet rec.values p.1 = some p.2) →
    ∃ out, writeDataRecordLoop rec fmt specs = .ok out ∧
      ∀ acc, (∀ p ∈ kvs, alGet acc p.1 = none) →
        ParsesExactly (readDataRecordLoop fmt specs acc) out (acc ++ kvs)
  | [], [] => by
    intro _ _ _
    refine ⟨[], rfl, ?_⟩
    intro acc _ pre rest q hq
    simp [readDataRecordLoop]
  | fs :: specs, [] => by
    intro hm
    simp [recMatchesLoop] at hm
  | [], (k, v) :: kvs => by
    intro hm
    simp [recMatchesLoop] at hm
  | fs :: specs, (k, v) :: kvs => by
    intro hm hnd hget
    rw [recMatchesLoop] at hm
    simp only [Bool.and_eq_true, decide_eq_true_eq] at hm
    obtain ⟨⟨rfl, hvm⟩, hm⟩ := hm
    rw [nodupKeys] at hnd
    simp only [Bool.and_eq_true, Option.isNone_iff_eq_none] at hnd
    obtain ⟨hk_none, hnd⟩ := hnd
    obtain ⟨enc, henc⟩ := writeValue_isOk hvm
    obtain ⟨out, hout, hread⟩ := record_roundtrip rec specs kvs hm hnd
      (fun p hp => hget p (by simp [hp]))
    refine ⟨enc ++ out, ?_, ?_⟩
    · simp only [writeDataRecordLoop, hget ((key_and_type fs fmt).1, v) (by simp), henc, hout]
    · intro acc hacc pre rest q hq
      have hv := parses_readValue hvm henc
      have h1 := pe_step hv pre (out ++ rest) q (by simp at hq ⊢; omega)
      have hacc1 : alGet acc (key_and_type fs fmt).1 = none :=
        hacc ((key_and_type fs fmt).1, v) (by simp)
      have hins : alInsert acc (key_and_type fs fmt).1 v = acc ++ [((key_and_type fs fmt).1, v)] :=
        alInsert_of_get_none v hacc1
      have hacc' : ∀ p ∈ kvs, alGet (alInsert acc (key_and_type fs fmt).1 v) p.1 = none := by
        intro p hp
        rw [hins, alGet_append_none _ (hacc p (by simp [hp]))]
        rw [alGet, if_neg (fun hcontra => alGet_none_forall hk_none p hp hcontra.symm)]
        rfl
      have h2 := pe_step_at (hread _ hacc') pre enc rest q (by simp at hq ⊢; omega)
      rw [readDataRecordLoop]
      simp only [List.append_assoc] at h1 h2 ⊢
      simp only [h1, h2]
      rw [hins]
      simp
      omega



theorem alGet_self_of_nodup {κ ν : Type} [DecidableEq κ] {l : List (κ × ν)}
    (h : nodupKeys l = true) : ∀ p ∈ l, alGet l p.1 = some p.2 := by
  induction l with
  | nil => simp
  | cons hd l ih =>
    obtain ⟨k, v⟩ := hd
    rw [nodupKeys] at h
    simp only [Bool.and_eq_true, Option.isNone_iff_eq_none] at h
    obtain ⟨hnone, hnd⟩ := h
    intro p hp
    rcases List.mem_cons.mp hp with rfl | hp'
    · simp [alGet]
    · rw [alGet, if_neg (fun hc => alGet_none_forall hnone p hp' hc.symm)]
      exact ih hnd p hp'

theorem alInsert_self {κ ν : Type} [DecidableEq κ] {l : List (κ × ν)} {k : κ} {v : ν}
    (h : alGet l k = some v) : alInsert l k v = l := by
  induction l with
  | nil => simp [alGet] at h
  | cons hd l ih =>
    rw [alGet] at h
    by_cases hk : hd.1 = k
    · rw [if_pos hk] at h
      simp only [Option.some.injEq] at h
      rw [alInsert]
      obtain ⟨k', v'⟩ := hd
      simp only at hk
      rw [if_pos hk, ← hk, ← h]
    · rw [if_neg hk] at h
      obtain ⟨k', v'⟩ := hd
      rw [alInsert, if_neg hk, ih h]

theorem insert_template_records_noop {store : Templates} {rs : List TemplateRecord}
    (h : ∀ t ∈ rs, alGet store t.template_id = some t.field_specifiers) :
    insert_template_records store rs = store := by
  induction rs with
  | nil => rfl
  | cons t rs ih =>
    rw [insert_template_records] at *
    simp only [List.foldl_cons]
    rw [alInsert_self (h t (by simp))]
    exact ih (fun t' ht' => h t' (by simp [ht']))

theorem readTemplateRecord_exhausted {r : Reader} (hr : r.avail ≤ r.pos) :
    readTemplateRecord r = .error .eof := by
  simp [readTemplateRecord, readBE_exhausted (n := 2) (by norm_num) hr, bind, Except.bind]

theorem readOptionsTemplateRecord_exhausted {r : Reader} (hr : r.avail ≤ r.pos) :
    readOptionsTemplateRecord r = .error .eof := by
  simp [readOptionsTemplateRecord, readBE_exhausted (n := 2) (by norm_num) hr, bind, Except.bind]

theorem readDataRecord_exhausted {sid : Nat} {store : Templates} {fmt : Formatter}
    {fs : FieldSpecifier} {specs : List FieldSpecifier}
    (hstore : alGet store sid = some (fs :: specs)) {v : DataRecordValue}
    (hvm : valueMatches (key_and_type fs fmt).2 fs.field_length v = true)
    {r : Reader} (hr : r.avail ≤ r.pos) :
    readDataRecord sid store fmt r = .error .eof := by
  simp [readDataRecord, hstore, readDataRecordLoop, readValue_exhausted hvm hr]

theorem readSet_exhausted {fuel : Nat} {fmt : Formatter} {store : Templates} {r : Reader}
    (hr : r.avail ≤ r.pos) :
    readSet fuel fmt store r = .error .eof := by
  simp [readSet, readBE_exhausted (n := 2) (by norm_num) hr, bind, Except.bind]

/-- The `until_eof` loop parses exactly a concatenation of item encodings when
the window ends at the last item's boundary. -/
theorem untilEof_parses {α : Type} {f : Reader → Except RErr (α × Reader)}
    (probe : ∀ r : Reader, r.avail ≤ r.pos → f r = .error .eof) :
    ∀ (ps : List (α × List Nat)), (∀ p ∈ ps, ParsesExactly f p.2 p.1) →
    ∀ (fuel : Nat), ps.length < fuel → ∀ (pre rest : List Nat),
    untilEof fuel f ⟨pre ++ (ps.map Prod.snd).flatten ++ rest, pre.length,
      pre.length + (ps.map Prod.snd).flatten.length⟩ =
      .ok (ps.map Prod.fst, ⟨pre ++ (ps.map Prod.snd).flatten ++ rest,
        pre.length + (ps.map Prod.snd).flatten.length,
        pre.length + (ps.map Prod.snd).flatten.length⟩)
  | [], _, fuel + 1, _, pre, rest => by
    have hprobe := probe ⟨pre ++ [] ++ rest, pre.length, pre.length + 0⟩
      (by simp [Reader.avail])
    simp only [List.map_nil, List.flatten_nil, List.length_nil] at *
    rw [untilEof]
    simp only [hprobe]
    simp
  | p :: ps, hall, fuel + 1, hfuel, pre, rest => by
    have hhead : ParsesExactly f p.2 p.1 := hall p (by simp)
    have h1 := pe_step hhead pre ((ps.map Prod.snd).flatten ++ rest)
      (p.2.length + (ps.map Prod.snd).flatten.length) (by omega)
    have htail := untilEof_parses probe ps (fun x hx => hall x (by simp [hx])) fuel
      (by simp at hfuel; omega) (pre ++ p.2) rest
    simp only [List.append_assoc, List.length_append] at htail
    rw [show pre.length + p.2.length + (ps.map Prod.snd).flatten.length =
      pre.length + (p.2.length + (ps.map Prod.snd).flatten.length) from by omega] at htail
    rw [untilEof]
    simp only [List.map_cons, List.flatten_cons, List.append_assoc, List.length_append]
    simp only [h1, htail]



/-- `ParsesExactly` for a state-threading parser that leaves the state fixed. -/
def ParsesExactlySt {α σ : Type} (f : σ → Reader → Except RErr (α × σ × Reader)) (st : σ)
    (bs : List Nat) (x : α) : Prop :=
  ∀ (pre rest : List Nat) (q : Nat), bs.length ≤ q →
    f st ⟨pre ++ bs ++ rest, pre.length, pre.length + q⟩ =
      .ok (x, st, ⟨pre ++ bs ++ rest, pre.length + bs.length, pre.length + q⟩)

theorem pe_st_step {α σ : Type} {f : σ → Reader → Except RErr (α × σ × Reader)} {st : σ}
    {bs1 : List Nat} {x : α} (hf : ParsesExactlySt f st bs1 x) (pre tail : List Nat) (q : Nat)
    (hq : bs1.length ≤ q) :
    f st ⟨pre ++ (bs1 ++ tail), pre.length, pre.length + q⟩ =
      .ok (x, st, ⟨pre ++ (bs1 ++ tail), pre.length + bs1.length, pre.length + q⟩) := by
  have := hf pre tail q hq
  simpa [List.append_assoc] using this

theorem pe_st_step_at {α σ : Type} {f : σ → Reader → Except RErr (α × σ × Reader)} {st : σ}
    {bs2 : List Nat} {y : α} (hg : ParsesExactlySt f st bs2 y) (pre bs1 tail : List Nat) (q : Nat)
    (hq : bs1.length + bs2.length ≤ q) :
    f st ⟨pre ++ (bs1 ++ (bs2 ++ tail)), pre.length + bs1.length, pre.length + q⟩ =
      .ok (y, st, ⟨pre ++ (bs1 ++ (bs2 ++ tail)), pre.length + bs1.length + bs2.length,
        pre.length + q⟩) := by
  have := hg (pre ++ bs1) tail (q - bs1.length) (by omega)
  simp only [List.append_assoc, List.length_append] at this
  have hq2 : pre.length + (bs1.length + (q - bs1.length)) = pre.length + q := by omega
  have hp2 : pre.length + bs1.length + (q - bs1.length) =
      pre.length + (bs1.length + (q - bs1.length)) := by omega
  rw [hp2, hq2] at this
  simpa using this

theorem untilEofSt_parses {α σ : Type} {f : σ → Reader → Except RErr (α × σ × Reader)} {st : σ}
    (probe : ∀ r : Reader, r.avail ≤ r.pos → f st r = .error .eof) :
    ∀ (ps : List (α × List Nat)), (∀ p ∈ ps, ParsesExactlySt f st p.2 p.1) →
    ∀ (fuel : Nat), ps.length < fuel → ∀ (pre rest : List Nat),
    untilEofSt fuel f st ⟨pre ++ (ps.map Prod.snd).flatten ++ rest, pre.length,
      pre.length + (ps.map Prod.snd).flatten.length⟩ =
      .ok (ps.map Prod.fst, st, ⟨pre ++ (ps.map Prod.snd).flatten ++ rest,
        pre.length + (ps.map Prod.snd).flatten.length,
        pre.length + (ps.map Prod.snd).flatten.length⟩)
  | [], _, fuel + 1, _, pre, rest => by
    have hprobe := probe ⟨pre ++ [] ++ rest, pre.length, pre.length + 0⟩
      (by simp [Reader.avail])
    simp only [List.map_nil, List.flatten_nil, List.length_nil] at *
    rw [untilEofSt]
    simp only [hprobe]
    simp
  | p :: ps, hall, fuel + 1, hfuel, pre, rest => by
    have hhead : ParsesExactlySt f st p.2 p.1 := hall p (by simp)
    have h1 := pe_st_step hhead pre ((ps.map Prod.snd).flatten ++ rest)
      (p.2.length + (ps.map Prod.snd).flatten.length) (by omega)
    have htail := untilEofSt_parses probe ps (fun x hx => hall x (by simp [hx])) fuel
      (by simp at hfuel; omega) (pre ++ p.2) rest
    simp only [List.append_assoc, List.length_append] at htail
    rw [show pre.length + p.2.length + (ps.map Prod.snd).flatten.length =
      pre.length + (p.2.length + (ps.map Prod.snd).flatten.length) from by omega] at htail
    rw [untilEofSt]
    simp only [List.map_cons, List.flatten_cons, List.append_assoc, List.length_append]
    simp only [h1, htail]

theorem length_le_flatten {α : Type} {ps : List (α × List Nat)} (h : ∀ p ∈ ps, p.2 ≠ []) :
    ps.length ≤ (ps.map Prod.snd).flatten.length := by
  induction ps with
  | nil => simp
  | cons p ps ih =>
    have hp := h p (by simp)
    have hlen : 1 ≤ p.2.length := by
      cases hpp : p.2 with
      | nil => exact absurd hpp hp
      | cons a l => simp
    simp only [List.map_cons, List.flatten_cons, List.length_append, List.length_cons]
    have := ih (fun x hx => h x (by simp [hx]))
    omega

theorem writeList_ok {α : Type} {w : α → Except String (List Nat)}
    {ps : List (α × List Nat)} (h : ∀ p ∈ ps, w p.1 = .ok p.2) :
    writeList w (ps.map Prod.fst) = .ok ((ps.map Prod.snd).flatten) := by
  induction ps with
  | nil => rfl
  | cons p ps ih =>
    simp only [List.map_cons, List.flatten_cons, writeList, h p (by simp),
      ih (fun x hx => h x (by simp [hx]))]



theorem valueMatches_len_pos {ty : DataRecordType} {len : Nat} {v : DataRecordValue}
    (h : valueMatches ty len v = true) : 1 ≤ len := by
  cases ty <;> cases v <;>
    simp only [valueMatches, Bool.and_eq_true, decide_eq_true_eq] at h <;>
    try exact absurd h (by decide)
  case Bool.Bool b => omega
  case Bytes.Bytes bytes =>
    by_cases hvar : len = 65535
    · omega
    · rw [if_neg hvar] at h
      simp only [Bool.and_eq_true, decide_eq_true_eq] at h
      omega
  case String.String bytes =>
    obtain ⟨-, h⟩ := h
    by_cases hvar : len = 65535
    · omega
    · rw [if_neg hvar] at h
      simp only [Bool.and_eq_true, decide_eq_true_eq] at h
      omega
  all_goals omega

theorem value_write_size_pos {ty : DataRecordType} {len : Nat} {v : DataRecordValue}
    {fs : FieldSpecifier} {n : Nat} (h : valueMatches ty len v = true)
    (hfs : fs.field_length = len) (hn : value_write_size v fs = .ok n) : 1 ≤ n := by
  subst hfs
  cases v with
    | U8 x =>
      simp only [value_write_size] at hn
      by_cases hvar : fs.field_length = 65535
      · rw [if_pos hvar] at hn
        exact absurd hn (by simp)
      · rw [if_neg hvar] at hn
        simp only [Except.ok.injEq] at hn
        have := valueMatches_len_pos h
        omega
    | U16 x =>
      simp only [value_write_size] at hn
      by_cases hvar : fs.field_length = 65535
      · rw [if_pos hvar] at hn
        exact absurd hn (by simp)
      · rw [if_neg hvar] at hn
        simp only [Except.ok.injEq] at hn
        have := valueMatches_len_pos h
        omega
    | U32 x =>
      simp only [value_write_size] at hn
      by_cases hvar : fs.field_length = 65535
      · rw [if_pos hvar] at hn
        exact absurd hn (by simp)
      · rw [if_neg hvar] at hn
        simp only [Except.ok.injEq] at hn
        have := valueMatches_len_pos h
        omega
    | U64 x =>
      simp only [value_write_size] at hn
      by_cases hvar : fs.field_length = 65535
      · rw [if_pos hvar] at hn
        exact absurd hn (by simp)
      · rw [if_neg hvar] at hn
        simp only [Except.ok.injEq] at hn
        have := valueMatches_len_pos h
        omega
    | I8 x =>
      simp only [value_write_size] at hn
      by_cases hvar : fs.field_length = 65535
      · rw [if_pos hvar] at hn
        exact absurd hn (by simp)
      · rw [if_neg hvar] at hn
        simp only [Except.ok.injEq] at hn
        have := valueMatches_len_pos h
        omega
    | I16 x =>
      simp only [value_write_size] at hn
      by_cases hvar : fs.field_length = 65535
      · rw [if_pos hvar] at hn
        exact absurd hn (by simp)
      · rw [if_neg hvar] at hn
        simp only [Except.ok.injEq] at hn
        have := valueMatches_len_pos h
        omega
    | I32 x =>
      simp only [value_write_size] at hn
      by_cases hvar : fs.field_length = 65535
      · rw [if_pos hvar] at hn
        exact absurd hn (by simp)
      · rw [if_neg hvar] at hn
        simp only [Except.ok.injEq] at hn
        have := valueMatches_len_pos h
        omega
    | I64 x =>
      simp only [value_write_size] at hn
      by_cases hvar : fs.field_length = 65535
      · rw [if_pos hvar] at hn
        exact absurd hn (by simp)
      · rw [if_neg hvar] at hn
        simp only [Except.ok.injEq] at hn
        have := valueMatches_len_pos h
        omega
    | F32 x =>
      simp only [value_write_size] at hn
      by_cases hvar : fs.field_length = 65535
      · rw [if_pos hvar] at hn
        exact absurd hn (by simp)
      · rw [if_neg hvar] at hn
        simp only [Except.ok.injEq] at hn
        have := valueMatches_len_pos h
        omega
    | F64 x =>
      simp only [value_write_size] at hn
      by_cases hvar : fs.field_length = 65535
      · rw [if_pos hvar] at hn
        exact absurd hn (by simp)
      · rw [if_neg hvar] at hn
        simp only [Except.ok.injEq] at hn
        have := valueMatches_len_pos h
        omega
    | Bool x =>
      simp only [value_write_size] at hn
      by_cases hvar : fs.field_length = 65535
      · rw [if_pos hvar] at hn
        exact absurd hn (by simp)
      · rw [if_neg hvar] at hn
        simp only [Except.ok.injEq] at hn
        have := valueMatches_len_pos h
        omega
    | MacAddress x =>
      simp only [value_write_size] at hn
      by_cases hvar : fs.field_length = 65535
      · rw [if_pos hvar] at hn
        exact absurd hn (by simp)
      · rw [if_neg hvar] at hn
        simp only [Except.ok.injEq] at hn
        have := valueMatches_len_pos h
        omega
    | Bytes bytes =>
      simp only [value_write_size] at hn
      by_cases hvar : fs.field_length = 65535
      · rw [if_pos hvar] at hn
        split_ifs at hn <;> simp only [Except.ok.injEq] at hn <;> omega
      · rw [if_neg hvar] at hn
        simp only [Except.ok.injEq] at hn
        have := valueMatches_len_pos h
        omega
    | String bytes =>
      simp only [value_write_size] at hn
      by_cases hvar : fs.field_length = 65535
      · rw [if_pos hvar] at hn
        split_ifs at hn <;> simp only [Except.ok.injEq] at hn <;> omega
      · rw [if_neg hvar] at hn
        simp only [Except.ok.injEq] at hn
        have := valueMatches_len_pos h
        omega
    | DateTimeSeconds x =>
      simp only [value_write_size] at hn
      by_cases hvar : fs.field_length = 65535
      · rw [if_pos hvar] at hn
        exact absurd hn (by simp)
      · rw [if_neg hvar] at hn
        simp only [Except.ok.injEq] at hn
        have := valueMatches_len_pos h
        omega
    | DateTimeMilliseconds x =>
      simp only [value_write_size] at hn
      by_cases hvar : fs.field_length = 65535
      · rw [if_pos hvar] at hn
        exact absurd hn (by simp)
      · rw [if_neg hvar] at hn
        simp only [Except.ok.injEq] at hn
        have := valueMatches_len_pos h
        omega
    | DateTimeMicroseconds x =>
      simp only [value_write_size] at hn
      by_cases hvar : fs.field_length = 65535
      · rw [if_pos hvar] at hn
        exact absurd hn (by simp)
      · rw [if_neg hvar] at hn
        simp only [Except.ok.injEq] at hn
        have := valueMatches_len_pos h
        omega
    | DateTimeNanoseconds x =>
      simp only [value_write_size] at hn
      by_cases hvar : fs.field_length = 65535
      · rw [if_pos hvar] at hn
        exact absurd hn (by simp)
      · rw [if_neg hvar] at hn
        simp only [Except.ok.injEq] at hn
        have := valueMatches_len_pos h
        omega
    | Ipv4Addr x =>
      simp only [value_write_size] at hn
      by_cases hvar : fs.field_length = 65535
      · rw [if_pos hvar] at hn
        exact absurd hn (by simp)
      · rw [if_neg hvar] at hn
        simp only [Except.ok.injEq] at hn
        have := valueMatches_len_pos h
        omega
    | Ipv6Addr x =>
      simp only [value_write_size] at hn
      by_cases hvar : fs.field_length = 65535
      · rw [if_pos hvar] at hn
        exact absurd hn (by simp)
      · rw [if_neg hvar] at hn
        simp only [Except.ok.injEq] at hn
        have := valueMatches_len_pos h
        omega

theorem record_size_of_write {fmt : Formatter} {rec : DataRecord} :
    ∀ (specs : List FieldSpecifier) (kvs : List (DataRecordKey × DataRecordValue)),
    recMatchesLoop fmt specs kvs = true →
    (∀ p ∈ kvs, alGet rec.values p.1 = some p.2) →
    ∀ out, writeDataRecordLoop rec fmt specs = .ok out →
    record_write_size_loop rec fmt specs = .ok out.length
  | [], [] => by
    intro _ _ out hout
    simp only [writeDataRecordLoop, Except.ok.injEq] at hout
    subst hout
    rfl
  | fs :: specs, [] => by
    intro hm
    simp [recMatchesLoop] at hm
  | [], (k, v) :: kvs => by
    intro hm
    simp [recMatchesLoop] at hm
  | fs :: specs, (k, v) :: kvs => by
    intro hm hget out hout
    rw [recMatchesLoop] at hm
    simp only [Bool.and_eq_true, decide_eq_true_eq] at hm
    obtain ⟨⟨rfl, hvm⟩, hm⟩ := hm
    have hv := hget ((key_and_type fs fmt).1, v) (by simp)
    rw [writeDataRecordLoop] at hout
    simp only [hv] at hout
    cases henc : writeValue v fs.field_length with
    | error e => rw [henc] at hout; exact absurd hout (by simp)
    | ok enc =>
      rw [henc] at hout
      cases hrest : writeDataRecordLoop rec fmt specs with
      | error e => rw [hrest] at hout; exact absurd hout (by simp)
      | ok more =>
        rw [hrest] at hout
        simp only [Except.ok.injEq] at hout
        subst hout
        have hsize := value_size_of_matches fs rfl hvm henc
        have hrec := record_size_of_write specs kvs hm
          (fun p hp => hget p (by simp [hp])) more hrest
        rw [record_write_size_loop]
        simp only [hv, hsize, hrec]
        simp

theorem writeFieldSpecifier_length (fs : FieldSpecifier) :
    (writeFieldSpecifier fs).length = field_specifier_write_size fs := by
  cases h : fs.enterprise_number <;>
    simp [writeFieldSpecifier, field_specifier_write_size, writeBE_length, h]

theorem flatten_writeFieldSpecifier_length (l : List FieldSpecifier) :
    ((l.map writeFieldSpecifier).flatten).length = (l.map field_specifier_write_size).sum := by
  induction l with
  | nil => rfl
  | cons fs l ih =>
    simp [writeFieldSpecifier_length, ih]



theorem listWriteSize_pure {α : Type} (g : α → Nat) (l : List α) :
    listWriteSize (fun t => .ok (g t)) l = .ok ((l.map g).sum) := by
  induction l with
  | nil => rfl
  | cons x l ih => simp [listWriteSize, ih]

theorem flatten_length_map {α : Type} {l : List α} (g : α → List Nat) (sz : α → Nat)
    (h : ∀ x ∈ l, (g x).length = sz x) :
    ((l.map g).flatten).length = (l.map sz).sum := by
  induction l with
  | nil => rfl
  | cons x l ih =>
    simp only [List.map_cons, List.flatten_cons, List.length_append, List.sum_cons]
    rw [h x (by simp), ih (fun y hy => h y (by simp [hy]))]

theorem template_records_roundtrip {store : Templates} {fmt : Formatter}
    {rs : List TemplateRecord} (hne : rs ≠ [])
    (hwire : ∀ t ∈ rs, templateRecordWire t = true)
    (hstore : ∀ t ∈ rs, alGet store t.template_id = some t.field_specifiers) :
    ∃ payload, writeRecords (.Template rs) store fmt = .ok payload ∧
      records_write_size (.Template rs) store fmt = .ok payload.length ∧
      1 ≤ payload.length ∧ rs.length ≤ payload.length ∧
      ∀ fuel, rs.length < fuel → ∀ pre rest : List Nat,
        readRecords fuel 2 store fmt
          ⟨pre ++ payload ++ rest, pre.length, pre.length + payload.length⟩ =
          .ok (.Template rs, store, ⟨pre ++ payload ++ rest,
            pre.length + payload.length, pre.length + payload.length⟩) := by
  classical
  set enc := fun t : TemplateRecord => writeBE 2 t.template_id ++
    writeBE 2 t.field_specifiers.length ++
    (t.field_specifiers.map writeFieldSpecifier).flatten with henc
  set ps := rs.map (fun t => (t, enc t)) with hps
  have hfst : ps.map Prod.fst = rs := by
    rw [hps, List.map_map]
    have hcomp : (Prod.fst ∘ fun t : TemplateRecord => (t, enc t)) = id := by
      funext t
      rfl
    rw [hcomp, List.map_id]
  have hsnd : ps.map Prod.snd = rs.map enc := by
    rw [hps, List.map_map]
    rfl
  have henclen : ∀ t ∈ rs, (enc t).length = template_record_write_size t := by
    intro t ht
    rw [henc, template_record_write_size]
    simp only [List.length_append, writeBE_length, flatten_writeFieldSpecifier_length]
  have hw : ∀ p ∈ ps, writeTemplateRecord p.1 = .ok p.2 := by
    intro p hp
    rw [hps] at hp
    simp only [List.mem_map] at hp
    obtain ⟨t, ht, rfl⟩ := hp
    have := hwire t ht
    simp only [templateRecordWire, Bool.and_eq_true, decide_eq_true_eq] at this
    show writeTemplateRecord t = .ok (enc t)
    rw [henc]
    exact writeTemplateRecord_ok (by omega)
  have hpe : ∀ p ∈ ps, ParsesExactly readTemplateRecord p.2 p.1 := by
    intro p hp
    rw [hps] at hp
    simp only [List.mem_map] at hp
    obtain ⟨t, ht, rfl⟩ := hp
    show ParsesExactly readTemplateRecord (enc t) t
    rw [henc]
    exact parses_readTemplateRecord (hwire t ht)
  have hnonempty : ∀ p ∈ ps, p.2 ≠ [] := by
    intro p hp
    rw [hps] at hp
    simp only [List.mem_map] at hp
    obtain ⟨t, ht, rfl⟩ := hp
    show enc t ≠ []
    intro hcontra
    have hzero : (enc t).length = 0 := by rw [hcontra]; rfl
    rw [henc] at hzero
    simp [writeBE_length] at hzero
  have hlenle := length_le_flatten hnonempty
  rw [hps, List.length_map, ← hps] at hlenle
  have hwr : writeRecords (.Template rs) store fmt = .ok ((ps.map Prod.snd).flatten) := by
    rw [writeRecords]
    conv in writeList _ rs => rw [← hfst]
    exact writeList_ok hw
  have hsz : records_write_size (.Template rs) store fmt =
      .ok ((ps.map Prod.snd).flatten).length := by
    rw [records_write_size, listWriteSize_pure template_record_write_size rs]
    rw [hsnd, flatten_length_map enc template_record_write_size henclen]
  have hcount : 1 ≤ rs.length := by
    cases rs with
    | nil => exact absurd rfl hne
    | cons a l => simp
  refine ⟨(ps.map Prod.snd).flatten, hwr, hsz, by omega, hlenle, ?_⟩
  intro fuel hfuel pre rest
  have hloop := untilEof_parses (fun r hr => readTemplateRecord_exhausted hr) ps hpe fuel
    (by rw [hps, List.length_map]; omega) pre rest
  rw [readRecords, if_pos rfl]
  simp only [hloop]
  rw [hfst, insert_template_records_noop hstore]


theorem options_records_roundtrip {store : Templates} {fmt : Formatter}
    {rs : List OptionsTemplateRecord} (hne : rs ≠ [])
    (hwire : ∀ t ∈ rs, optionsTemplateRecordWire t = true) :
    ∃ payload, writeRecords (.OptionsTemplate rs) store fmt = .ok payload ∧
      records_write_size (.OptionsTemplate rs) store fmt = .ok payload.length ∧
      1 ≤ payload.length ∧ rs.length ≤ payload.length ∧
      ∀ fuel, rs.length < fuel → ∀ pre rest : List Nat,
        readRecords fuel 3 store fmt
          ⟨pre ++ payload ++ rest, pre.length, pre.length + payload.length⟩ =
          .ok (.OptionsTemplate rs, store, ⟨pre ++ payload ++ rest,
            pre.length + payload.length, pre.length + payload.length⟩) := by
  classical
  set enc := fun t : OptionsTemplateRecord => writeBE 2 t.template_id ++
    writeBE 2 t.field_specifiers.length ++ writeBE 2 t.scope_field_count ++
    (t.field_specifiers.map writeFieldSpecifier).flatten with henc
  set ps := rs.map (fun t => (t, enc t)) with hps
  have hfst : ps.map Prod.fst = rs := by
    rw [hps, List.map_map]
    have hcomp : (Prod.fst ∘ fun t : OptionsTemplateRecord => (t, enc t)) = id := by
      funext t
      rfl
    rw [hcomp, List.map_id]
  have hsnd : ps.map Prod.snd = rs.map enc := by
    rw [hps, List.map_map]
    rfl
  have henclen : ∀ t ∈ rs, (enc t).length = options_template_record_write_size t := by
    intro t ht
    rw [henc, options_template_record_write_size]
    simp only [List.length_append, writeBE_length, flatten_writeFieldSpecifier_length]
  have hw : ∀ p ∈ ps, writeOptionsTemplateRecord p.1 = .ok p.2 := by
    intro p hp
    rw [hps] at hp
    simp only [List.mem_map] at hp
    obtain ⟨t, ht, rfl⟩ := hp
    have := hwire t ht
    simp only [optionsTemplateRecordWire, Bool.and_eq_true, decide_eq_true_eq] at this
    show writeOptionsTemplateRecord t = .ok (enc t)
    rw [henc]
    exact writeOptionsTemplateRecord_ok (by omega)
  have hpe : ∀ p ∈ ps, ParsesExactly readOptionsTemplateRecord p.2 p.1 := by
    intro p hp
    rw [hps] at hp
    simp only [List.mem_map] at hp
    obtain ⟨t, ht, rfl⟩ := hp
    show ParsesExactly readOptionsTemplateRecord (enc t) t
    rw [henc]
    exact parses_readOptionsTemplateRecord (hwire t ht)
  have hnonempty : ∀ p ∈ ps, p.2 ≠ [] := by
    intro p hp
    rw [hps] at hp
    simp only [List.mem_map] at hp
    obtain ⟨t, ht, rfl⟩ := hp
    show enc t ≠ []
    intro hcontra
    have hzero : (enc t).length = 0 := by rw [hcontra]; rfl
    rw [henc] at hzero
    simp [writeBE_length] at hzero
  have hlenle := length_le_flatten hnonempty
  rw [hps, List.length_map, ← hps] at hlenle
  have hwr : writeRecords (.OptionsTemplate rs) store fmt = .ok ((ps.map Prod.snd).flatten) := by
    rw [writeRecords]
    conv in writeList _ rs => rw [← hfst]
    exact writeList_ok hw
  have hsz : records_write_size (.OptionsTemplate rs) store fmt =
      .ok ((ps.map Prod.snd).flatten).length := by
    rw [records_write_size, listWriteSize_pure options_template_record_write_size rs]
    rw [hsnd, flatten_length_map enc options_template_record_write_size henclen]
  have hcount : 1 ≤ rs.length := by
    cases rs with
    | nil => exact absurd rfl hne
    | cons a l => simp
  refine ⟨(ps.map Prod.snd).flatten, hwr, hsz, by omega, hlenle, ?_⟩
  intro fuel hfuel pre rest
  have hloop := untilEof_parses (fun r hr => readOptionsTemplateRecord_exhausted hr) ps hpe fuel
    (by rw [hps, List.length_map]; omega) pre rest
  rw [readRecords]
  rw [if_neg (by norm_num), if_pos rfl]
  simp only [hloop]
  rw [hfst]


theorem listWriteSize_ok {α : Type} {ws : α → Except String Nat} {l : List α} {g : α → Nat}
    (h : ∀ x ∈ l, ws x = .ok (g x)) : listWriteSize ws l = .ok ((l.map g).sum) := by
  induction l with
  | nil => rfl
  | cons x l ih =>
    simp [listWriteSize, h x (by simp), ih (fun y hy => h y (by simp [hy]))]

/-- A data record agreeing with its template: keys in specifier order with no
duplicates, values matching each slot. -/
def dataRecordCanonical (fmt : Formatter) (specs : List FieldSpecifier) (rec : DataRecord) :
    Bool :=
  recMatchesLoop fmt specs rec.values && nodupKeys rec.values

theorem data_records_roundtrip {store : Templates} {fmt : Formatter} {sid : Nat}
    {specs : List FieldSpecifier} {data : List DataRecord}
    (hsid1 : 255 < sid) (hne : data ≠ [])
    (hstore : alGet store sid = some specs) (hspecs : specs ≠ [])
    (hall : ∀ rec ∈ data, dataRecordCanonical fmt specs rec = true) :
    ∃ payload, writeRecords (.Data sid data) store fmt = .ok payload ∧
      records_write_size (.Data sid data) store fmt = .ok payload.length ∧
      1 ≤ payload.length ∧ data.length ≤ payload.length ∧
      ∀ fuel, data.length < fuel → ∀ pre rest : List Nat,
        readRecords fuel sid store fmt
          ⟨pre ++ payload ++ rest, pre.length, pre.length + payload.length⟩ =
          .ok (.Data sid data, store, ⟨pre ++ payload ++ rest,
            pre.length + payload.length, pre.length + payload.length⟩) := by
  classical
  set enc := fun rec : DataRecord =>
    (match writeDataRecordLoop rec fmt specs with
     | .ok o => o
     | .error _ => []) with henc
  have hrec : ∀ rec ∈ data, writeDataRecordLoop rec fmt specs = .ok (enc rec) ∧
      ParsesExactly (readDataRecord sid store fmt) (enc rec) rec ∧ 1 ≤ (enc rec).length := by
    intro rec hr
    have hc := hall rec hr
    simp only [dataRecordCanonical, Bool.and_eq_true] at hc
    obtain ⟨hm, hnd⟩ := hc
    have hget := alGet_self_of_nodup hnd
    obtain ⟨out, hout, hread⟩ := record_roundtrip rec specs rec.values hm hnd hget
    have hencr : enc rec = out := by
      rw [henc]
      simp only [hout]
    have hloop := hread [] (by simp [alGet])
    have hpe : ParsesExactly (readDataRecord sid store fmt) out rec := by
      intro pre rest q hq
      have hthis := hloop pre rest q hq
      simp only [List.nil_append] at hthis
      simp only [readDataRecord, hstore, hthis]
    have hposlen : 1 ≤ out.length := by
      cases specs with
      | nil => exact absurd rfl hspecs
      | cons fs specs' =>
        cases hkvs : rec.values with
        | nil =>
          rw [hkvs] at hm
          simp [recMatchesLoop] at hm
        | cons kv kvs =>
          obtain ⟨k, v⟩ := kv
          rw [hkvs] at hm
          rw [recMatchesLoop] at hm
          simp only [Bool.and_eq_true, decide_eq_true_eq] at hm
          obtain ⟨⟨hk, hvm⟩, -⟩ := hm
          have hv : alGet rec.values k = some v := by
            rw [hkvs]
            simp [alGet]
          rw [writeDataRecordLoop] at hout
          rw [hk] at hv
          simp only [hv] at hout
          cases hwv : writeValue v fs.field_length with
          | error e => rw [hwv] at hout; exact absurd hout (by simp)
          | ok encv =>
            rw [hwv] at hout
            cases hmore : writeDataRecordLoop rec fmt specs' with
            | error e => rw [hmore] at hout; exact absurd hout (by simp)
            | ok more =>
              rw [hmore] at hout
              simp only [Except.ok.injEq] at hout
              subst hout
              have hsz1 := value_size_of_matches fs rfl hvm hwv
              have hp1 := value_write_size_pos hvm rfl hsz1
              simp only [List.length_append]
              omega
    rw [hencr]
    exact ⟨hout, hpe, hposlen⟩
  set ps := data.map (fun rec => (rec, enc rec)) with hps
  have hfst : ps.map Prod.fst = data := by
    rw [hps, List.map_map]
    have hcomp : (Prod.fst ∘ fun rec : DataRecord => (rec, enc rec)) = id := by
      funext t
      rfl
    rw [hcomp, List.map_id]
  have hsnd : ps.map Prod.snd = data.map enc := by
    rw [hps, List.map_map]
    rfl
  have hw : ∀ p ∈ ps, writeDataRecord p.1 sid store fmt = .ok p.2 := by
    intro p hp
    rw [hps] at hp
    simp only [List.mem_map] at hp
    obtain ⟨rec, hr, rfl⟩ := hp
    show writeDataRecord rec sid store fmt = .ok (enc rec)
    rw [writeDataRecord, hstore]
    exact (hrec rec hr).1
  have hpe : ∀ p ∈ ps, ParsesExactly (readDataRecord sid store fmt) p.2 p.1 := by
    intro p hp
    rw [hps] at hp
    simp only [List.mem_map] at hp
    obtain ⟨rec, hr, rfl⟩ := hp
    exact (hrec rec hr).2.1
  have hnonempty : ∀ p ∈ ps, p.2 ≠ [] := by
    intro p hp
    rw [hps] at hp
    simp only [List.mem_map] at hp
    obtain ⟨rec, hr, rfl⟩ := hp
    show enc rec ≠ []
    have := (hrec rec hr).2.2
    intro hcontra
    rw [hcontra] at this
    simp at this
  have hlenle := length_le_flatten hnonempty
  rw [hps, List.length_map, ← hps] at hlenle
  have hwr : writeRecords (.Data sid data) store fmt = .ok ((ps.map Prod.snd).flatten) := by
    rw [writeRecords]
    conv in writeList _ data => rw [← hfst]
    exact writeList_ok hw
  have hsz : records_write_size (.Data sid data) store fmt =
      .ok ((ps.map Prod.snd).flatten).length := by
    rw [records_write_size]
    rw [listWriteSize_ok (g := fun rec => (enc rec).length) ?_]
    · rw [hsnd, flatten_length_map enc (fun rec => (enc rec).length) (fun x hx => rfl)]
    · intro rec hr
      rw [record_write_size, hstore]
      have hc := hall rec hr
      simp only [dataRecordCanonical, Bool.and_eq_true] at hc
      obtain ⟨hm, hnd⟩ := hc
      exact record_size_of_write specs rec.values hm (alGet_self_of_nodup hnd) _ (hrec rec hr).1
  have hcount : 1 ≤ data.length := by
    cases data with
    | nil => exact absurd rfl hne
    | cons a l => simp
  refine ⟨(ps.map Prod.snd).flatten, hwr, hsz, by omega, hlenle, ?_⟩
  intro fuel hfuel pre rest
  obtain ⟨fshead, spectl, hspec_eq⟩ : ∃ fs tl, specs = fs :: tl := by
    cases specs with
    | nil => exact absurd rfl hspecs
    | cons fs tl => exact ⟨fs, tl, rfl⟩
  obtain ⟨rec0, datatl, hdata_eq⟩ : ∃ r tl, data = r :: tl := by
    cases data with
    | nil => exact absurd rfl hne
    | cons r tl => exact ⟨r, tl, rfl⟩
  have hc0 := hall rec0 (by rw [hdata_eq]; simp)
  simp only [dataRecordCanonical, Bool.and_eq_true] at hc0
  obtain ⟨hm0, -⟩ := hc0
  rw [hspec_eq] at hm0
  obtain ⟨k0, v0, kvs0, hkvs0⟩ : ∃ k v kvs, rec0.values = (k, v) :: kvs := by
    rcases hv : rec0.values with - | ⟨kv, kvs⟩
    · rw [hv] at hm0
      simp [recMatchesLoop] at hm0
    · exact ⟨kv.1, kv.2, kvs, rfl⟩
  rw [hkvs0, recMatchesLoop] at hm0
  simp only [Bool.and_eq_true, decide_eq_true_eq] at hm0
  obtain ⟨⟨-, hvm0⟩, -⟩ := hm0
  have hstore' : alGet store sid = some (fshead :: spectl) := by rw [← hspec_eq]; exact hstore
  have hprobe : ∀ r : Reader, r.avail ≤ r.pos → readDataRecord sid store fmt r = .error .eof :=
    fun r hr => readDataRecord_exhausted hstore' hvm0 hr
  have hloop := untilEof_parses hprobe ps hpe fuel
    (by rw [hps, List.length_map]; omega) pre rest
  rw [readRecords, if_neg (by omega), if_neg (by omega), if_pos hsid1]
  simp only [hloop]
  rw [hfst]

theorem mem_length_le_flatten {α : Type} {ls : List (List α)} {l : List α} (h : l ∈ ls) :
    l.length ≤ ls.flatten.length := by
  induction ls with
  | nil => simp at h
  | cons a as ih =>
    simp only [List.flatten_cons, List.length_append]
    rcases List.mem_cons.mp h with h | h
    · subst h; omega
    · have := ih h; omega

/-- Per-variant conditions under which a `Records` value survives the
write/read round trip with the template store unchanged: the wire bounds on
each record, non-emptiness (an empty record vector writes zero bytes, which
`until_eof` cannot see), store consistency for templates (so the install is a
no-op) and for data sets a known, non-empty template and canonical records. -/
def RecordsOk (store : Templates) (fmt : Formatter) : Records → Prop
  | .Template rs => rs ≠ [] ∧ (∀ t ∈ rs, templateRecordWire t = true) ∧
      (∀ t ∈ rs, alGet store t.template_id = some t.field_specifiers)
  | .OptionsTemplate rs => rs ≠ [] ∧ ∀ t ∈ rs, optionsTemplateRecordWire t = true
  | .Data sid data => 255 < sid ∧ sid < 65536 ∧ data ≠ [] ∧
      ∃ specs, alGet store sid = some specs ∧ specs ≠ [] ∧
        ∀ rec ∈ data, dataRecordCanonical fmt specs rec = true

theorem recordsOk_set_id_lt {store : Templates} {fmt : Formatter} {recs : Records}
    (h : RecordsOk store fmt recs) : recs.set_id < 65536 := by
  cases recs with
  | Template rs => simp [Records.set_id]
  | OptionsTemplate rs => simp [Records.set_id]
  | Data sid data => exact h.2.1

theorem recordsOk_roundtrip {store : Templates} {fmt : Formatter} {recs : Records}
    (h : RecordsOk store fmt recs) :
    ∃ payload, writeRecords recs store fmt = .ok payload ∧
      records_write_size recs store fmt = .ok payload.length ∧
      1 ≤ payload.length ∧
      ∀ fuel, payload.length < fuel → ∀ pre rest : List Nat,
        readRecords fuel recs.set_id store fmt
          ⟨pre ++ payload ++ rest, pre.length, pre.length + payload.length⟩ =
          .ok (recs, store, ⟨pre ++ payload ++ rest,
            pre.length + payload.length, pre.length + payload.length⟩) := by
  cases recs with
  | Template rs =>
    obtain ⟨hne, hwire, hstore⟩ := h
    obtain ⟨payload, hwr, hsz, hpos, hlenle, hread⟩ :=
      template_records_roundtrip hne hwire hstore
    exact ⟨payload, hwr, hsz, hpos, fun fuel hf => hread fuel (by omega)⟩
  | OptionsTemplate rs =>
    obtain ⟨hne, hwire⟩ := h
    obtain ⟨payload, hwr, hsz, hpos, hlenle, hread⟩ := options_records_roundtrip hne hwire
    exact ⟨payload, hwr, hsz, hpos, fun fuel hf => hread fuel (by omega)⟩
  | Data sid data =>
    obtain ⟨hsid1, hsid2, hne, specs, hstore, hspecs, hall⟩ := h
    obtain ⟨payload, hwr, hsz, hpos, hlenle, hread⟩ :=
      data_records_roundtrip hsid1 hne hstore hspecs hall
    exact ⟨payload, hwr, hsz, hpos, fun fuel hf => hread fuel (by omega)⟩

/-- A set that round-trips: well-formed records whose payload also fits the
two-byte `length` field (`4 + payload ≤ 65535`). -/
def SetOk (store : Templates) (fmt : Formatter) (s : Set) : Prop :=
  RecordsOk store fmt s.records ∧
    ∀ n, records_write_size s.records store fmt = .ok n → n ≤ 65531

theorem set_roundtrip {store : Templates} {fmt : Formatter} {s : Set}
    (h : SetOk store fmt s) :
    ∃ bytes, writeSet s store fmt = .ok bytes ∧
      set_write_size s store fmt = .ok bytes.length ∧
      5 ≤ bytes.length ∧ bytes.length ≤ 65535 ∧
      ∀ fuel, bytes.length < fuel →
        ParsesExactlySt (fun ts rr => readSet fuel fmt ts rr) store bytes s := by
  obtain ⟨recs⟩ := s
  obtain ⟨hok0, hfit0⟩ := h
  have hok : RecordsOk store fmt recs := hok0
  have hfit : ∀ n, records_write_size recs store fmt = .ok n → n ≤ 65531 := hfit0
  obtain ⟨payload, hwr, hsz, hpos, hread⟩ := recordsOk_roundtrip hok
  have hple : payload.length ≤ 65531 := hfit _ hsz
  have hid : recs.set_id < 65536 := recordsOk_set_id_lt hok
  have hsetsz : set_write_size ⟨recs⟩ store fmt = .ok (4 + payload.length) := by
    rw [set_write_size]
    simp only [hsz]
  have hbytes : writeSet ⟨recs⟩ store fmt =
      .ok (writeBE 2 recs.set_id ++ writeBE 2 (4 + payload.length) ++ payload) := by
    rw [writeSet]
    simp only [hsetsz, hwr]
  refine ⟨_, hbytes, ?_, ?_, ?_, ?_⟩
  · rw [hsetsz]
    congr 1
    simp only [List.length_append, writeBE_length]
    try omega
  · simp only [List.length_append, writeBE_length]
    omega
  · simp only [List.length_append, writeBE_length]
    omega
  · intro fuel hfuel pre rest q hq
    simp only [List.length_append, writeBE_length] at hq hfuel
    have h1 := pe_step (parses_readBE_writeBE (n := 2) (v := recs.set_id)
      (by norm_num; omega)) pre
      (writeBE 2 (4 + payload.length) ++ (payload ++ rest)) q
      (by simp only [writeBE_length]; omega)
    have h2 := pe_step_at (parses_readBE_writeBE (n := 2) (v := 4 + payload.length)
      (by norm_num; omega)) pre (writeBE 2 recs.set_id) (payload ++ rest) q
      (by simp only [writeBE_length]; omega)
    have hread2 := hread fuel (by omega)
      (pre ++ writeBE 2 recs.set_id ++ writeBE 2 (4 + payload.length)) rest
    simp only [List.append_assoc, List.length_append, writeBE_length] at hread2
    simp only [readSet]
    simp only [List.append_assoc, writeBE_length, List.length_append] at h1 h2 ⊢
    simp only [bind, Except.bind, h1, h2]
    rw [if_pos (by omega)]
    have hmin : min (pre.length + q) (pre.length + 2 + 2 + (4 + payload.length - 4)) =
        pre.length + (2 + (2 + payload.length)) := by omega
    simp only [hmin]
    rw [show pre.length + (2 + (2 + payload.length)) =
      pre.length + 2 + 2 + payload.length from by omega]
    simp only [hread2]

/-- The byte encoding of a set (total function; the error case, impossible
under `SetOk`, maps to `[]`). -/
def setEnc (store : Templates) (fmt : Formatter) (s : Set) : List Nat :=
  match writeSet s store fmt with
  | .ok bs => bs
  | .error _ => []

/-- A message that round-trips against a fixed store: header fields in their
four-byte range and every set is `SetOk`. -/
def MessageOk (store : Templates) (fmt : Formatter) (m : Message) : Prop :=
  m.export_time < 2 ^ 32 ∧ m.sequence_number < 2 ^ 32 ∧
  m.observation_domain_id < 2 ^ 32 ∧ ∀ s ∈ m.sets, SetOk store fmt s

theorem message_roundtrip {store : Templates} {fmt : Formatter} {m : Message}
    (h : MessageOk store fmt m) :
    ∃ bytes, writeMessage m store fmt = .ok bytes ∧
      message_write_size m store fmt = .ok bytes.length ∧
      16 ≤ bytes.length ∧
      ∀ fuel, bytes.length < fuel → ∀ pre rest : List Nat,
        readMessage fuel store fmt
          ⟨pre ++ bytes ++ rest, pre.length, pre.length + bytes.length⟩ =
          .ok (m, store, ⟨pre ++ bytes ++ rest, pre.length + bytes.length,
            pre.length + bytes.length⟩) := by
  classical
  obtain ⟨et, sn, od, sets⟩ := m
  obtain ⟨het0, hsn0, hod0, hsetsok0⟩ := h
  have het : et < 2 ^ 32 := het0
  have hsn : sn < 2 ^ 32 := hsn0
  have hod : od < 2 ^ 32 := hod0
  have hsetsok : ∀ s ∈ sets, SetOk store fmt s := hsetsok0
  have hset : ∀ s ∈ sets, writeSet s store fmt = .ok (setEnc store fmt s) ∧
      set_write_size s store fmt = .ok (setEnc store fmt s).length ∧
      5 ≤ (setEnc store fmt s).length ∧
      ∀ fuel, (setEnc store fmt s).length < fuel →
        ParsesExactlySt (fun ts rr => readSet fuel fmt ts rr) store (setEnc store fmt s) s := by
    intro s hs
    obtain ⟨bytes, hw, hsz, h5, h65, hpe⟩ := set_roundtrip (hsetsok s hs)
    have he : setEnc store fmt s = bytes := by
      rw [setEnc]
      simp only [hw]
    rw [he]
    exact ⟨hw, hsz, h5, hpe⟩
  set ps := sets.map (fun s => (s, setEnc store fmt s)) with hps
  have hfst : ps.map Prod.fst = sets := by
    rw [hps, List.map_map]
    have hcomp : (Prod.fst ∘ fun s : Set => (s, setEnc store fmt s)) = id := by
      funext s
      rfl
    rw [hcomp, List.map_id]
  set flat := (ps.map Prod.snd).flatten with hflat
  have hwlist : writeList (fun s => writeSet s store fmt) sets = .ok flat := by
    conv in writeList _ sets => rw [← hfst]
    refine writeList_ok ?_
    intro p hp
    rw [hps] at hp
    simp only [List.mem_map] at hp
    obtain ⟨s, hs, rfl⟩ := hp
    exact (hset s hs).1
  have hmsz : message_write_size ⟨et, sn, od, sets⟩ store fmt = .ok (16 + flat.length) := by
    rw [message_write_size]
    have hls := @listWriteSize_ok Set (fun s => set_write_size s store fmt)
      sets (fun s => (setEnc store fmt s).length)
      (fun s hs => (hset s hs).2.1)
    simp only [hls]
    rw [hflat, hps, List.map_map]
    rw [flatten_length_map (Prod.snd ∘ fun s : Set => (s, setEnc store fmt s))
      (fun s => (setEnc store fmt s).length) (fun x hx => rfl)]
  refine ⟨writeBE 2 10 ++ writeBE 2 (16 + flat.length) ++ writeBE 4 et ++ writeBE 4 sn ++
      writeBE 4 od ++ flat, ?_, ?_, ?_, ?_⟩
  · rw [writeMessage]
    simp only [hmsz, hwlist]
  · rw [hmsz]
    congr 1
    simp only [List.length_append, writeBE_length]
  · simp only [List.length_append, writeBE_length]
    omega
  · intro fuel hfuel pre rest
    simp only [List.length_append, writeBE_length] at hfuel ⊢
    have hLfuel : flat.length < fuel := by omega
    have hnonempty : ∀ p ∈ ps, p.2 ≠ [] := by
      intro p hp
      rw [hps] at hp
      simp only [List.mem_map] at hp
      obtain ⟨s, hs, rfl⟩ := hp
      have h5le := (hset s hs).2.2.1
      intro hcontra
      have hcontra2 : setEnc store fmt s = [] := hcontra
      rw [hcontra2] at h5le
      simp at h5le
    have hcnt : ps.length ≤ flat.length := by
      have := length_le_flatten hnonempty
      rw [← hflat] at this
      exact this
    have hpes : ∀ p ∈ ps, ParsesExactlySt (fun ts rr => readSet fuel fmt ts rr) store p.2 p.1 := by
      intro p hp
      have hp' := hp
      rw [hps] at hp'
      simp only [List.mem_map] at hp'
      obtain ⟨s, hs, rfl⟩ := hp'
      have hmem : setEnc store fmt s ∈ ps.map Prod.snd := List.mem_map_of_mem Prod.snd hp
      have hlen : (setEnc store fmt s).length ≤ flat.length := by
        rw [hflat]
        exact mem_length_le_flatten hmem
      exact (hset s hs).2.2.2 fuel (by omega)
    have hprobe : ∀ r : Reader, r.avail ≤ r.pos →
        readSet fuel fmt store r = .error .eof := fun r hr => readSet_exhausted hr
    have huntil := untilEofSt_parses hprobe ps hpes fuel (by omega)
      (pre ++ writeBE 2 10 ++ writeBE 2 (16 + flat.length) ++ writeBE 4 et ++ writeBE 4 sn ++
        writeBE 4 od) rest
    have h1 := pe_step (parses_readBE_writeBE (n := 2) (v := 10) (by norm_num)) pre
      (writeBE 2 (16 + flat.length) ++ (writeBE 4 et ++ (writeBE 4 sn ++ (writeBE 4 od ++
        (flat ++ rest))))) (2 + 2 + 4 + 4 + 4 + flat.length)
      (by simp only [writeBE_length]; omega)
    have h2 := pe_step_at (@parses_readBE 2 (writeBE 2 (16 + flat.length))
        (writeBE_length 2 _)) pre (writeBE 2 10)
      (writeBE 4 et ++ (writeBE 4 sn ++ (writeBE 4 od ++ (flat ++ rest))))
      (2 + 2 + 4 + 4 + 4 + flat.length) (by simp only [writeBE_length]; omega)
    have h3 := pe_step_at (parses_readBE_writeBE (n := 4) (v := et) (by norm_num; omega)) pre
      (writeBE 2 10 ++ writeBE 2 (16 + flat.length))
      (writeBE 4 sn ++ (writeBE 4 od ++ (flat ++ rest)))
      (2 + 2 + 4 + 4 + 4 + flat.length)
      (by simp only [writeBE_length, List.length_append]; omega)
    have h4 := pe_step_at (parses_readBE_writeBE (n := 4) (v := sn) (by norm_num; omega)) pre
      (writeBE 2 10 ++ writeBE 2 (16 + flat.length) ++ writeBE 4 et)
      (writeBE 4 od ++ (flat ++ rest))
      (2 + 2 + 4 + 4 + 4 + flat.length)
      (by simp only [writeBE_length, List.length_append]; omega)
    have h5 := pe_step_at (parses_readBE_writeBE (n := 4) (v := od) (by norm_num; omega)) pre
      (writeBE 2 10 ++ writeBE 2 (16 + flat.length) ++ writeBE 4 et ++ writeBE 4 sn)
      (flat ++ rest)
      (2 + 2 + 4 + 4 + 4 + flat.length)
      (by simp only [writeBE_length, List.length_append]; omega)
    simp only [readMessage]
    simp only [List.append_assoc, List.length_append, writeBE_length] at h1 h2 h3 h4 h5 huntil ⊢
    rw [← hflat] at huntil
    simp only [Nat.add_assoc] at h1 h2 h3 h4 h5 huntil ⊢
    simp only [bind, Except.bind, h1]
    simp only [if_true]
    simp only [h2, h3, h4, h5, huntil]
    rw [hfst]

/-! ## Concrete instances used by the claim theorems -/

/-- A store holding template 257 with one four-byte unsigned field. -/
def c1store : Templates := [(257, [⟨1, 4, none⟩])]

/-- Formatter mapping information element 1 to an unsigned integer. -/
def c1fmt : Formatter := [((0, 1), ("octetDeltaCount", .UnsignedInt))]

/-- A 26-byte message: one data set for template 257 whose 4-byte record is
followed by two trailing alignment padding bytes (set length 10 = 4 + 4 + 2). -/
def c1bytes : List Nat :=
  [0, 10, 0, 26, 0, 0, 0, 0, 0, 0, 0, 0, 0, 0, 0, 0, 1, 1, 0, 10, 0, 0, 0, 7, 0, 0]

/-- What the reader recovers from `c1bytes` (the padding is dropped). -/
def c1msg : Message := ⟨0, 0, 0, [⟨.Data 257 [⟨[(.Str "octetDeltaCount", .U32 7)]⟩]⟩]⟩

/-- Re-encoding `c1msg`: 24 bytes, without the padding. -/
def c1out : List Nat :=
  [0, 10, 0, 24, 0, 0, 0, 0, 0, 0, 0, 0, 0, 0, 0, 0, 1, 1, 0, 8, 0, 0, 0, 7]

/-- A canonical (padding-free) message over `c1store`. -/
def c1wmsg : Message := ⟨1, 2, 3, [⟨.Data 257 [⟨[(.Str "octetDeltaCount", .U32 7)]⟩]⟩]⟩

/-- An options-template set (id 3, template 257) followed by a data set that
references template 257 within the same message. -/
def c2bytes : List Nat :=
  [0, 10, 0, 35, 0, 0, 0, 0, 0, 0, 0, 0, 0, 0, 0, 0,
   0, 3, 0, 14, 1, 1, 0, 1, 0, 0, 0, 2, 0, 1,
   1, 1, 0, 5, 7]

/-- The payload of the options-template set of `c2bytes`. -/
def c2otbytes : List Nat := [1, 1, 0, 1, 0, 0, 0, 2, 0, 1]

/-- A message truncated mid-set: the header declares 30 bytes and the set
declares 12, but the stream ends after one byte of set payload. -/
def c4bytes : List Nat :=
  [0, 10, 0, 30, 0, 0, 0, 0, 0, 0, 0, 0, 0, 0, 0, 0, 0, 2, 0, 12, 1]

/-- A store whose template 257 declares an unsigned field of length 3. -/
def c5store : Templates := [(257, [⟨1, 3, none⟩])]

/-- Formatter mapping information element 1 to an unsigned integer. -/
def c5fmt : Formatter := [((0, 1), ("octetDeltaCount", .UnsignedInt))]

/-- A data set for template 257 carrying three bytes of payload. -/
def c5bytes : List Nat := [1, 1, 0, 7, 0, 0, 0]

/-- An unrecognized one-byte field specifier. -/
def c5wfs : FieldSpecifier := ⟨5, 1, none⟩

/-- A store holding template 300 with the single specifier `c5wfs`. -/
def c5wstore : Templates := [(300, [c5wfs])]

/-- A record matching `c5wstore`'s template 300. -/
def c5wrec : DataRecord := ⟨[(.Unrecognized c5wfs, .Bytes [9])]⟩

/-- A store holding template 257 with one four-byte unsigned field. -/
def c7store : Templates := [(257, [⟨1, 4, none⟩])]

/-- Formatter mapping information element 1 to an unsigned integer. -/
def c7fmt : Formatter := [((0, 1), ("octetDeltaCount", .UnsignedInt))]

/-- A message whose data record puts a two-byte `U16` into template 257's
four-byte slot. -/
def c7msg : Message := ⟨0, 0, 0, [⟨.Data 257 [⟨[(.Str "octetDeltaCount", .U16 5)]⟩]⟩]⟩

/-- The bytes actually emitted for `c7msg`: 22 of them, while the header
claims 24. -/
def c7out : List Nat :=
  [0, 10, 0, 24, 0, 0, 0, 0, 0, 0, 0, 0, 0, 0, 0, 0, 1, 1, 0, 8, 0, 5]

/-- A store holding template 258 with one four-byte unsigned field. -/
def c7wstore : Templates := [(258, [⟨1, 4, none⟩])]

/-- A message carrying one template set for template 258. -/
def c7wmsg : Message := ⟨0, 0, 0, [⟨.Template [⟨258, [⟨1, 4, none⟩]⟩]⟩]⟩

/-- A message with a template set installing the EMPTY template 257, then a
data set for 257 with one byte of payload: each data-record parse consumes
zero bytes, so the set's record loop never reaches its limit. -/
def c8bytes : List Nat :=
  [0, 10, 0, 29, 0, 0, 0, 0, 0, 0, 0, 0, 0, 0, 0, 0,
   0, 2, 0, 8, 1, 1, 0, 0,
   1, 1, 0, 5, 7]

/-- A store whose template 258 declares an eight-byte slot. -/
def c9store : Templates := [(258, [⟨1, 8, none⟩])]

/-- Formatter mapping information element 1 to an unsigned integer. -/
def c9fmt : Formatter := [((0, 1), ("octetDeltaCount", .UnsignedInt))]

/-- A data set whose record carries a four-byte `U32` in the eight-byte slot. -/
def c9set : Set := ⟨.Data 258 [⟨[(.Str "octetDeltaCount", .U32 7)]⟩]⟩

/-- A field specifier that template 300 of `c10store` repeats twice. -/
def c10fs : FieldSpecifier := ⟨5, 1, none⟩

/-- A store whose template 300 lists the same specifier twice: both resolve
to the same `Unrecognized` data-record key. -/
def c10store : Templates := [(300, [c10fs, c10fs])]

/-! ## Claim theorems -/

/-- C3: writing a byte vector of length `L ≤ 0xFFFF - 3` into a
variable-length slot (`field_length = 0xFFFF`) and re-reading it yields the
vector back; the encoding takes `L + 1` bytes when `L < 255` and `L + 3`
otherwise (0xFF marker plus a u16 length), and the declared write size agrees;
the size computation fails for longer vectors and for values that are neither
`Bytes` nor `String`. -/
theorem c3_variable_length_law (v : List Nat) (fs : FieldSpecifier)
    (hfs : fs.field_length = 65535) (hlen : v.length ≤ 65532) :
    ∃ out, writeValue (.Bytes v) 65535 = .ok out ∧
      out.length = (if v.length < 255 then v.length + 1 else v.length + 3) ∧
      value_write_size (.Bytes v) fs = .ok out.length ∧
      ParsesExactly (readValue .Bytes 65535) out (.Bytes v) ∧
      (∀ w : List Nat, 65532 < w.length → value_write_size (.Bytes w) fs = .error
        "Tried to determine length for a variable length element which is larger than u16::MAX - 3") ∧
      (∀ x : Nat, value_write_size (.U8 x) fs = .error "Non variable length field!") := by
  have hm : valueMatches .Bytes 65535 (.Bytes v) = true := by
    simp only [valueMatches, if_true, decide_eq_true_eq]
    exact hlen
  have hfail1 : ∀ w : List Nat, 65532 < w.length → value_write_size (.Bytes w) fs = .error
      "Tried to determine length for a variable length element which is larger than u16::MAX - 3" := by
    intro w hgt
    simp only [value_write_size, hfs, if_true]
    rw [if_pos (by omega : w.length > 65535 - 3)]
  have hfail2 : ∀ x : Nat, value_write_size (.U8 x) fs = .error "Non variable length field!" := by
    intro x
    simp only [value_write_size, hfs, if_true]
  by_cases h255 : v.length < 255
  · have hw : writeValue (.Bytes v) 65535 = .ok (writeBE 1 v.length ++ v) := by
      rw [writeValue, if_pos rfl, if_pos h255]
    refine ⟨_, hw, ?_, value_size_of_matches fs hfs hm hw, parses_readValue hm hw,
      hfail1, hfail2⟩
    rw [if_pos h255]
    simp only [List.length_append, writeBE_length]
    omega
  · have hw : writeValue (.Bytes v) 65535 = .ok (255 :: writeBE 2 v.length ++ v) := by
      rw [writeValue, if_pos rfl, if_neg h255, if_pos (by omega)]
    refine ⟨_, hw, ?_, value_size_of_matches fs hfs hm hw, parses_readValue hm hw,
      hfail1, hfail2⟩
    rw [if_neg h255]
    simp only [List.length_cons, List.length_append, writeBE_length]
    omega

/-- C3 witness: the law at the one-byte vector `[7]` in a variable-length
slot. -/
theorem c3_variable_length_law_witness :
    (⟨1, 65535, none⟩ : FieldSpecifier).field_length = 65535 ∧
    ([7] : List Nat).length ≤ 65532 ∧
    ∃ out, writeValue (.Bytes [7]) 65535 = .ok out ∧
      out.length = (if ([7] : List Nat).length < 255 then ([7] : List Nat).length + 1
        else ([7] : List Nat).length + 3) ∧
      value_write_size (.Bytes [7]) ⟨1, 65535, none⟩ = .ok out.length ∧
      ParsesExactly (readValue .Bytes 65535) out (.Bytes [7]) ∧
      (∀ w : List Nat, 65532 < w.length →
        value_write_size (.Bytes w) ⟨1, 65535, none⟩ = .error
        "Tried to determine length for a variable length element which is larger than u16::MAX - 3") ∧
      (∀ x : Nat, value_write_size (.U8 x) ⟨1, 65535, none⟩ =
        .error "Non variable length field!") :=
  ⟨rfl, by norm_num, c3_variable_length_law [7] ⟨1, 65535, none⟩ rfl (by norm_num)⟩

/-- The spec's type/length table (its fixed mappings plus `Bytes`/`String` at
any length), written out to compare against the reader's dispatch. -/
def specValidPair : DataRecordType → Nat → Bool
  | .UnsignedInt, len => decide (len = 1) || decide (len = 2) || decide (len = 4) || decide (len = 8)
  | .SignedInt, len => decide (len = 1) || decide (len = 2) || decide (len = 4) || decide (len = 8)
  | .Float, len => decide (len = 4) || decide (len = 8)
  | .Bool, len => decide (len = 1)
  | .MacAddress, len => decide (len = 6)
  | .Bytes, _ => true
  | .String, _ => true
  | .DateTimeSeconds, len => decide (len = 4)
  | .DateTimeMilliseconds, len => decide (len = 8)
  | .DateTimeMicroseconds, len => decide (len = 8)
  | .DateTimeNanoseconds, len => decide (len = 8)
  | .Ipv4Addr, len => decide (len = 4)
  | .Ipv6Addr, len => decide (len = 16)

theorem isValidUtf8_replicate_zero : ∀ n : Nat, isValidUtf8 (List.replicate n 0) = true
  | 0 => rfl
  | n + 1 => by
    rw [List.replicate_succ, isValidUtf8.eq_def]
    simp only []
    rw [if_pos (by norm_num)]
    exact isValidUtf8_replicate_zero n

/-- C6: reading one value fails with the "invalid type/length pair" error,
carrying the stream position, exactly off the spec's table; on the table a
suitably filled reader succeeds. -/
theorem c6_type_length_table (ty : DataRecordType) (len : Nat) :
    (specValidPair ty len = false → ∀ r : Reader,
      readValue ty len r = .error (.assertFail r.pos
        ("Invalid type/length pair: " ++ tyDebug ty ++ " " ++ toString len))) ∧
    (specValidPair ty len = true → ∃ (r : Reader) (v : DataRecordValue) (r' : Reader),
      readValue ty len r = .ok (v, r')) := by
  constructor
  · intro hv r
    cases ty <;>
      simp only [specValidPair, Bool.or_eq_false_iff, decide_eq_false_iff_not,
        Bool.true_eq_false] at hv
    case UnsignedInt =>
      obtain ⟨⟨⟨h1, h2⟩, h4⟩, h8⟩ := hv
      rw [readValue, if_neg h1, if_neg h2, if_neg h4, if_neg h8]
      rfl
    case SignedInt =>
      obtain ⟨⟨⟨h1, h2⟩, h4⟩, h8⟩ := hv
      rw [readValue, if_neg h1, if_neg h2, if_neg h4, if_neg h8]
      rfl
    case Float =>
      obtain ⟨h4, h8⟩ := hv
      rw [readValue, if_neg h4, if_neg h8]
      rfl
    case Bool => rw [readValue, if_neg hv]; rfl
    case MacAddress => rw [readValue, if_neg hv]; rfl
    case DateTimeSeconds => rw [readValue, if_neg hv]; rfl
    case DateTimeMilliseconds => rw [readValue, if_neg hv]; rfl
    case DateTimeMicroseconds => rw [readValue, if_neg hv]; rfl
    case DateTimeNanoseconds => rw [readValue, if_neg hv]; rfl
    case Ipv4Addr => rw [readValue, if_neg hv]; rfl
    case Ipv6Addr => rw [readValue, if_neg hv]; rfl
  · intro hv
    cases ty
    case Bytes =>
      by_cases hl : len = 65535
      · subst hl
        exact ⟨mkReader [0], .Bytes [], ⟨[0], 1, 1⟩, rfl⟩
      · refine ⟨mkReader (List.replicate len 0), .Bytes (List.replicate len 0),
          ⟨List.replicate len 0, len, len⟩, ?_⟩
        simp [readValue, read_variable_length, hl, readBytesR, Reader.avail, mkReader,
          Except.map]
    case String =>
      by_cases hl : len = 65535
      · subst hl
        exact ⟨mkReader [0], .String [], ⟨[0], 1, 1⟩, rfl⟩
      · refine ⟨mkReader (List.replicate len 0), .String (List.replicate len 0),
          ⟨List.replicate len 0, len, len⟩, ?_⟩
        simp [readValue, read_variable_length, hl, readBytesR, Reader.avail, mkReader,
          isValidUtf8_replicate_zero]
    all_goals
      simp only [specValidPair, Bool.or_eq_true, decide_eq_true_eq] at hv
    case UnsignedInt =>
      rcases hv with ((rfl | rfl) | rfl) | rfl
      · exact ⟨mkReader [0], _, _, rfl⟩
      · exact ⟨mkReader [0, 0], _, _, rfl⟩
      · exact ⟨mkReader [0, 0, 0, 0], _, _, rfl⟩
      · exact ⟨mkReader [0, 0, 0, 0, 0, 0, 0, 0], _, _, rfl⟩
    case SignedInt =>
      rcases hv with ((rfl | rfl) | rfl) | rfl
      · exact ⟨mkReader [0], _, _, rfl⟩
      · exact ⟨mkReader [0, 0], _, _, rfl⟩
      · exact ⟨mkReader [0, 0, 0, 0], _, _, rfl⟩
      · exact ⟨mkReader [0, 0, 0, 0, 0, 0, 0, 0], _, _, rfl⟩
    case Float =>
      rcases hv with rfl | rfl
      · exact ⟨mkReader [0, 0, 0, 0], _, _, rfl⟩
      · exact ⟨mkReader [0, 0, 0, 0, 0, 0, 0, 0], _, _, rfl⟩
    case Bool =>
      subst hv
      exact ⟨mkReader [1], _, _, rfl⟩
    case MacAddress =>
      subst hv
      exact ⟨mkReader [0, 0, 0, 0, 0, 0], _, _, rfl⟩
    case DateTimeSeconds =>
      subst hv
      exact ⟨mkReader [0, 0, 0, 0], _, _, rfl⟩
    case DateTimeMilliseconds =>
      subst hv
      exact ⟨mkReader [0, 0, 0, 0, 0, 0, 0, 0], _, _, rfl⟩
    case DateTimeMicroseconds =>
      subst hv
      exact ⟨mkReader [0, 0, 0, 0, 0, 0, 0, 0], _, _, rfl⟩
    case DateTimeNanoseconds =>
      subst hv
      exact ⟨mkReader [0, 0, 0, 0, 0, 0, 0, 0], _, _, rfl⟩
    case Ipv4Addr =>
      subst hv
      exact ⟨mkReader [0, 0, 0, 0], _, _, rfl⟩
    case Ipv6Addr =>
      subst hv
      exact ⟨mkReader [0, 0, 0, 0, 0, 0, 0, 0, 0, 0, 0, 0, 0, 0, 0, 0], _, _, rfl⟩

/-- C6 witness: `Float 3` always fails with the invalid-pair error, and
`Float 4` succeeds on a four-byte reader. -/
theorem c6_type_length_table_witness :
    readValue .Float 3 (mkReader []) =
      .error (.assertFail 0 "Invalid type/length pair: Float 3") ∧
    ∃ (r : Reader) (v : DataRecordValue) (r' : Reader),
      readValue .Float 4 r = .ok (v, r') :=
  ⟨(c6_type_length_table .Float 3).1 rfl (mkReader []),
   (c6_type_length_table .Float 4).2 rfl⟩

/-- C9: fixed-length slots are written from the value's own width, with no
check against the template's `field_length`, while the write-size computation
counts `field_length`; the concrete set `c9set` (a `U32` in an eight-byte
slot) is emitted as 8 bytes whose `length` field claims 12. -/
theorem c9_fixed_width_not_checked :
    (∀ (x len : Nat), writeValue (.U16 x) len = .ok (writeBE 2 x)) ∧
    (∀ (fs : FieldSpecifier) (x : Nat), fs.field_length ≠ 65535 →
      value_write_size (.U16 x) fs = .ok fs.field_length) ∧
    writeSet c9set c9store c9fmt = .ok [1, 2, 0, 12, 0, 0, 0, 7] ∧
    set_write_size c9set c9store c9fmt = .ok 12 ∧
    ([1, 2, 0, 12, 0, 0, 0, 7] : List Nat).length = 8 := by
  refine ⟨fun x len => rfl, ?_, rfl, rfl, rfl⟩
  intro fs x h
  simp only [value_write_size, if_neg h]

/-- C9 witness: the size computation at a concrete fixed slot of length 4. -/
theorem c9_fixed_width_not_checked_witness :
    value_write_size (.U16 5) ⟨1, 4, none⟩ = .ok 4 := by
  have h := c9_fixed_width_not_checked.2.1 ⟨1, 4, none⟩ 5 (by norm_num)
  simpa using h

/-- C10: template 300 of `c10store` repeats one specifier, so both fields
resolve to the same key; reading two bytes keeps only the last value (one map
entry for two template fields), and writing that record emits the single
value into both slots. -/
theorem c10_duplicate_keys_collapse :
    alGet c10store 300 = some [c10fs, c10fs] ∧
    readDataRecord 300 c10store [] (mkReader [1, 2]) =
      .ok (⟨[(.Unrecognized c10fs, .Bytes [2])]⟩, ⟨[1, 2], 2, 2⟩) ∧
    [(DataRecordKey.Unrecognized c10fs, DataRecordValue.Bytes [2])].length = 1 ∧
    [c10fs, c10fs].length = 2 ∧
    writeDataRecord ⟨[(.Unrecognized c10fs, .Bytes [2])]⟩ 300 c10store [] =
      .ok ([2] ++ [2]) :=
  ⟨rfl, rfl, rfl, rfl, rfl⟩

/-- C2: reading a set with `set_id = 3` parses its options-template records
but leaves the template store untouched (only `set_id = 2` installs; lib.rs
line 21 carries the TODO), so the data set referencing options template 257
later in the same message fails with the missing-template error instead of
decoding. -/
theorem c2_options_template_not_installed :
    readRecords 8 3 [] [] ⟨c2otbytes, 0, 10⟩ =
      .ok (.OptionsTemplate [⟨257, 0, [⟨2, 1, none⟩]⟩], [], ⟨c2otbytes, 10, 10⟩) ∧
    readMessage 32 [] [] (mkReader c2bytes) =
      .error (.assertFail 34 "Missing template for set id 257") :=
  ⟨rfl, rfl⟩

/-- C4 counterexample: `c4bytes` ends one byte into a 12-byte set, well
before the header's declared 30 bytes are consumed, yet parsing succeeds and
returns a message whose only set has no records at all. -/
theorem c4_truncated_message_accepted :
    readMessage 32 [] [] (mkReader c4bytes) =
      .ok (⟨0, 0, 0, [⟨.Template []⟩]⟩, [], ⟨c4bytes, 20, 21⟩) :=
  rfl

/-- C4 (amended): when an item parser fails with EOF — wherever the stream
ends, the declared lengths playing no role — `until_eof` treats it as a
graceful end of input: the partial item's bytes are restored and the loop
returns the items parsed so far. -/
theorem c4_until_eof_swallows_eof {α : Type} (f : Reader → Except RErr (α × Reader))
    (r : Reader) (fuel : Nat) (h : f r = .error .eof) :
    untilEof (fuel + 1) f r = .ok ([], r) := by
  rw [untilEof, h]

/-- C4 witness: a lone byte fails a template-record parse with EOF, and the
loop over it returns no records. -/
theorem c4_until_eof_swallows_eof_witness :
    readTemplateRecord (mkReader [1]) = .error .eof ∧
    untilEof 3 readTemplateRecord (mkReader [1]) = .ok ([], mkReader [1]) :=
  ⟨rfl, c4_until_eof_swallows_eof readTemplateRecord (mkReader [1]) 2 rfl⟩

/-- C5 counterexample: the store does contain template 257, yet reading the
data set fails — with the invalid type/length error, not a missing-template
one — so "fails if and only if the template is missing" does not hold. -/
theorem c5_fails_despite_template :
    alGet c5store 257 = some [⟨1, 3, none⟩] ∧
    readSet 8 c5fmt c5store (mkReader c5bytes) =
      .error (.assertFail 4 "Invalid type/length pair: UnsignedInt 3") :=
  ⟨rfl, rfl⟩

/-- C5 (amended): a data record read under `set_id` fails with "Missing
template for set id N" at the current position when the store lacks `N`;
when the store has a (canonical) template, decoding proceeds through its
field specifiers in order — the write/read round trip of any record matching
the template succeeds — though other errors may still occur. -/
theorem c5_template_dispatch {sid : Nat} {store : Templates} {fmt : Formatter}
    {specs : List FieldSpecifier} {rec : DataRecord} (r : Reader) :
    (alGet store sid = none →
      readDataRecord sid store fmt r =
        .error (.assertFail r.pos ("Missing template for set id " ++ toString sid))) ∧
    (alGet store sid = some specs → dataRecordCanonical fmt specs rec = true →
      ∃ out, writeDataRecord rec sid store fmt = .ok out ∧
        ParsesExactly (readDataRecord sid store fmt) out rec) := by
  constructor
  · intro hmiss
    rw [readDataRecord, hmiss]
  · intro hstore hc
    simp only [dataRecordCanonical, Bool.and_eq_true] at hc
    obtain ⟨hm, hnd⟩ := hc
    have hget := alGet_self_of_nodup hnd
    obtain ⟨out, hout, hread⟩ := record_roundtrip rec specs rec.values hm hnd hget
    have hloop := hread [] (by simp [alGet])
    refine ⟨out, ?_, ?_⟩
    · rw [writeDataRecord, hstore]
      exact hout
    · intro pre rest q hq
      have hthis := hloop pre rest q hq
      simp only [List.nil_append] at hthis
      simp only [readDataRecord, hstore, hthis]

/-- C5 witness: the missing-template error on an empty store, and a
successful dispatch through the one-field template 300. -/
theorem c5_template_dispatch_witness :
    (readDataRecord 257 [] [] (mkReader []) =
      .error (.assertFail 0 "Missing template for set id 257")) ∧
    ∃ out, writeDataRecord c5wrec 300 c5wstore [] = .ok out ∧
      ParsesExactly (readDataRecord 300 c5wstore []) out c5wrec :=
  ⟨(@c5_template_dispatch 257 [] [] [] ⟨[]⟩ (mkReader [])).1 rfl,
   (@c5_template_dispatch 300 c5wstore [] [c5wfs] c5wrec (mkReader [])).2 rfl (by decide)⟩

/-- An item parse that succeeds without consuming bytes starves `until_eof`:
no fuel suffices (the Rust loop never terminates). -/
theorem untilEof_no_progress {α : Type} {f : Reader → Except RErr (α × Reader)} {r : Reader}
    {x : α} (h : f r = .ok (x, r)) : ∀ fuel, untilEof fuel f r = .error .fuel
  | 0 => rfl
  | fuel + 1 => by
    rw [untilEof]
    simp only [h, untilEof_no_progress h fuel]

/-- C8: decoding does not terminate on every finite input.  `c8bytes`
installs the empty template 257 and then opens a data set for it: each data
record parse succeeds after zero bytes, the record loop never advances, and
the whole message read diverges (every fuel bound is exhausted). -/
theorem c8_empty_template_nontermination :
    ∀ fuel, readMessage fuel [] [] (mkReader c8bytes) = .error .fuel := by
  intro fuel
  match fuel with
  | 0 => rfl
  | 1 => rfl
  | n + 2 =>
    have hnp : readDataRecord 257 [(257, [])] [] ⟨c8bytes, 28, 29⟩ =
        .ok (⟨[]⟩, ⟨c8bytes, 28, 29⟩) := rfl
    have hdata := untilEof_no_progress hnp
    have hset2 : ∀ m : Nat, readSet m [] [(257, [])] ⟨c8bytes, 24, 29⟩ = .error .fuel := by
      intro m
      have hA : readBE 2 (⟨c8bytes, 24, 29⟩ : Reader) = .ok (257, ⟨c8bytes, 26, 29⟩) := rfl
      have hB : readBE 2 (⟨c8bytes, 26, 29⟩ : Reader) = .ok (5, ⟨c8bytes, 28, 29⟩) := rfl
      simp only [readSet, bind, Except.bind, hA, hB]
      rw [if_pos (by norm_num)]
      rw [show (⟨c8bytes, 28, min 29 (28 + (5 - 4))⟩ : Reader) = ⟨c8bytes, 28, 29⟩ from rfl]
      rw [readRecords, if_neg (by norm_num), if_neg (by norm_num), if_pos (by norm_num)]
      simp only [hdata m]
    have hT1 : readTemplateRecord (⟨c8bytes, 20, 24⟩ : Reader) =
        .ok (⟨257, []⟩, ⟨c8bytes, 24, 24⟩) := rfl
    have hT2 : readTemplateRecord (⟨c8bytes, 24, 24⟩ : Reader) = .error .eof := rfl
    have hTloop : ∀ m : Nat, untilEof (m + 2) readTemplateRecord ⟨c8bytes, 20, 24⟩ =
        .ok ([⟨257, []⟩], ⟨c8bytes, 24, 24⟩) := by
      intro m
      rw [untilEof]
      simp only [hT1]
      rw [untilEof]
      simp only [hT2]
    have hset1 : readSet (n + 2) [] [] ⟨c8bytes, 16, 29⟩ =
        .ok (⟨.Template [⟨257, []⟩]⟩, [(257, [])], ⟨c8bytes, 24, 29⟩) := by
      have hA : readBE 2 (⟨c8bytes, 16, 29⟩ : Reader) = .ok (2, ⟨c8bytes, 18, 29⟩) := rfl
      have hB : readBE 2 (⟨c8bytes, 18, 29⟩ : Reader) = .ok (8, ⟨c8bytes, 20, 29⟩) := rfl
      simp only [readSet, bind, Except.bind, hA, hB]
      rw [if_pos (by norm_num)]
      rw [show (⟨c8bytes, 20, min 29 (20 + (8 - 4))⟩ : Reader) = ⟨c8bytes, 20, 24⟩ from rfl]
      rw [readRecords, if_pos rfl]
      simp only [hTloop n]
      rfl
    have hH1 : readBE 2 (mkReader c8bytes) = .ok (10, ⟨c8bytes, 2, 29⟩) := rfl
    have hH2 : readBE 2 (⟨c8bytes, 2, 29⟩ : Reader) = .ok (29, ⟨c8bytes, 4, 29⟩) := rfl
    have hH3 : readBE 4 (⟨c8bytes, 4, 29⟩ : Reader) = .ok (0, ⟨c8bytes, 8, 29⟩) := rfl
    have hH4 : readBE 4 (⟨c8bytes, 8, 29⟩ : Reader) = .ok (0, ⟨c8bytes, 12, 29⟩) := rfl
    have hH5 : readBE 4 (⟨c8bytes, 12, 29⟩ : Reader) = .ok (0, ⟨c8bytes, 16, 29⟩) := rfl
    simp only [readMessage, bind, Except.bind, hH1, hH2, hH3, hH4, hH5]
    simp only [if_true]
    rw [untilEofSt]
    simp only [hset1]
    rw [untilEofSt]
    simp only [hset2 (n + 2)]

/-- C1 counterexample: `c1bytes` parses (its two padding bytes are silently
dropped by the record loop), but re-encoding the decoded message with the
same store and formatter yields the 24-byte `c1out`, not the original 26
bytes — the decode/encode round trip is not byte-exact on inputs with
trailing alignment padding inside a set. -/
theorem c1_padding_breaks_roundtrip :
    readMessage 32 c1store c1fmt (mkReader c1bytes) =
      .ok (c1msg, c1store, ⟨c1bytes, 24, 26⟩) ∧
    writeMessage c1msg c1store c1fmt = .ok c1out ∧
    c1out ≠ c1bytes :=
  ⟨rfl, rfl, by decide⟩

/-- C1 (amended): the round trip holds in the other composition and without
padding: a canonical message (in-range header fields, well-formed records,
templates already installed, canonical data records) writes successfully and
reads back to exactly itself, with the store unchanged and every byte
consumed. -/
theorem c1_canonical_roundtrip {store : Templates} {fmt : Formatter} {m : Message}
    (h : MessageOk store fmt m) :
    ∃ bytes, writeMessage m store fmt = .ok bytes ∧
      ∀ fuel, bytes.length < fuel →
        readMessage fuel store fmt (mkReader bytes) =
          .ok (m, store, ⟨bytes, bytes.length, bytes.length⟩) := by
  obtain ⟨bytes, hw, -, -, hread⟩ := message_roundtrip h
  refine ⟨bytes, hw, fun fuel hf => ?_⟩
  have hx := hread fuel hf [] []
  simpa [mkReader] using hx

/-- C1 witness: the canonical one-data-set message `c1wmsg` round-trips. -/
theorem c1_canonical_roundtrip_witness :
    MessageOk c1store c1fmt c1wmsg ∧
    ∃ bytes, writeMessage c1wmsg c1store c1fmt = .ok bytes ∧
      ∀ fuel, bytes.length < fuel →
        readMessage fuel c1store c1fmt (mkReader bytes) =
          .ok (c1wmsg, c1store, ⟨bytes, bytes.length, bytes.length⟩) := by
  have hrec : RecordsOk c1store c1fmt
      (Records.Data 257 [⟨[(.Str "octetDeltaCount", .U32 7)]⟩]) := by
    show 255 < 257 ∧ 257 < 65536 ∧
      ([⟨[(.Str "octetDeltaCount", .U32 7)]⟩] : List DataRecord) ≠ [] ∧
      ∃ specs, alGet c1store 257 = some specs ∧ specs ≠ [] ∧
        ∀ rec ∈ ([⟨[(.Str "octetDeltaCount", .U32 7)]⟩] : List DataRecord),
          dataRecordCanonical c1fmt specs rec = true
    refine ⟨by norm_num, by norm_num, by simp, [⟨1, 4, none⟩], rfl, by simp, ?_⟩
    intro rec hrec
    simp only [List.mem_singleton] at hrec
    subst hrec
    decide
  have hsize : ∀ n, records_write_size
      (Records.Data 257 [⟨[(.Str "octetDeltaCount", .U32 7)]⟩]) c1store c1fmt = .ok n →
      n ≤ 65531 := by
    intro n hn
    have he : records_write_size (Records.Data 257 [⟨[(.Str "octetDeltaCount", .U32 7)]⟩])
        c1store c1fmt = .ok 4 := rfl
    rw [he] at hn
    injection hn with h4
    omega
  have h : MessageOk c1store c1fmt c1wmsg := by
    refine ⟨by decide, by decide, by decide, ?_⟩
    intro s hs
    simp only [c1wmsg, List.mem_singleton] at hs
    subst hs
    exact ⟨hrec, hsize⟩
  exact ⟨h, c1_canonical_roundtrip h⟩

/-- C7 counterexample: `c7msg` holds a two-byte value in a four-byte slot;
the writer emits 22 bytes but the header's u16 length field says 24 (the size
computation counts `field_length`, the writer emits the value's own width),
so the emitted length does not equal the bytes written. -/
theorem c7_header_overstates_bytes :
    writeMessage c7msg c7store c7fmt = .ok c7out ∧
    message_write_size c7msg c7store c7fmt = .ok 24 ∧
    c7out.length = 22 ∧
    c7out.take 4 = [0, 10, 0, 24] :=
  ⟨rfl, rfl, rfl, rfl⟩

/-- C7 (amended): for canonical messages (every value's width matching its
slot) the header's u16 length field equals the total bytes written, and that
total is 16 plus the sum of the per-set write sizes, each being 4 plus the
set's record payload. -/
theorem c7_written_length_accurate {store : Templates} {fmt : Formatter} {m : Message}
    (h : MessageOk store fmt m) :
    ∃ bytes, writeMessage m store fmt = .ok bytes ∧
      message_write_size m store fmt = .ok bytes.length ∧
      (∃ tail, bytes = writeBE 2 10 ++ writeBE 2 bytes.length ++ tail) ∧
      ∃ sizes : List Nat,
        m.sets.map (fun s => set_write_size s store fmt) = sizes.map Except.ok ∧
        bytes.length = 16 + sizes.sum ∧
        ∀ s ∈ m.sets, ∃ payload, writeRecords s.records store fmt = .ok payload ∧
          set_write_size s store fmt = .ok (4 + payload.length) := by
  obtain ⟨bytes, hw, hsz, -, -⟩ := message_roundtrip h
  obtain ⟨-, -, -, hsets⟩ := h
  have hper : ∀ s ∈ m.sets, set_write_size s store fmt = .ok (setEnc store fmt s).length := by
    intro s hs
    obtain ⟨bs, hws, hss, -, -, -⟩ := set_roundtrip (hsets s hs)
    have he : setEnc store fmt s = bs := by
      rw [setEnc]
      simp only [hws]
    rw [he]
    exact hss
  refine ⟨bytes, hw, hsz, ?_, ?_⟩
  · have hw' := hw
    rw [writeMessage] at hw'
    simp only [hsz] at hw'
    cases hpl : writeList (fun s => writeSet s store fmt) m.sets with
    | error e =>
      rw [hpl] at hw'
      simp at hw'
    | ok payload =>
      simp only [hpl] at hw'
      injection hw' with hb
      refine ⟨writeBE 4 m.export_time ++ writeBE 4 m.sequence_number ++
        writeBE 4 m.observation_domain_id ++ payload, ?_⟩
      conv_lhs => rw [← hb]
      simp [List.append_assoc]
  · refine ⟨m.sets.map (fun s => (setEnc store fmt s).length), ?_, ?_, ?_⟩
    · rw [List.map_map]
      exact List.map_congr_left hper
    · have hls := @listWriteSize_ok Set (fun s => set_write_size s store fmt)
        m.sets (fun s => (setEnc store fmt s).length) hper
      have hms : message_write_size m store fmt =
          .ok (16 + (m.sets.map (fun s => (setEnc store fmt s).length)).sum) := by
        rw [message_write_size]
        simp only [hls]
      rw [hms] at hsz
      injection hsz with hn
      omega
    · intro s hs
      obtain ⟨payload, hwr, hszr, -, -⟩ := recordsOk_roundtrip (hsets s hs).1
      refine ⟨payload, hwr, ?_⟩
      rw [set_write_size]
      simp only [hszr]

/-- C7 witness: the canonical template-set message `c7wmsg`. -/
theorem c7_written_length_accurate_witness :
    MessageOk c7wstore c7fmt c7wmsg ∧
    ∃ bytes, writeMessage c7wmsg c7wstore c7fmt = .ok bytes ∧
      message_write_size c7wmsg c7wstore c7fmt = .ok bytes.length ∧
      (∃ tail, bytes = writeBE 2 10 ++ writeBE 2 bytes.length ++ tail) ∧
      ∃ sizes : List Nat,
        c7wmsg.sets.map (fun s => set_write_size s c7wstore c7fmt) = sizes.map Except.ok ∧
        bytes.length = 16 + sizes.sum ∧
        ∀ s ∈ c7wmsg.sets, ∃ payload, writeRecords s.records c7wstore c7fmt = .ok payload ∧
          set_write_size s c7wstore c7fmt = .ok (4 + payload.length) := by
  have hrec : RecordsOk c7wstore c7fmt (Records.Template [⟨258, [⟨1, 4, none⟩]⟩]) := by
    show ([⟨258, [⟨1, 4, none⟩]⟩] : List TemplateRecord) ≠ [] ∧
      (∀ t ∈ ([⟨258, [⟨1, 4, none⟩]⟩] : List TemplateRecord), templateRecordWire t = true) ∧
      ∀ t ∈ ([⟨258, [⟨1, 4, none⟩]⟩] : List TemplateRecord),
        alGet c7wstore t.template_id = some t.field_specifiers
    refine ⟨by simp, ?_, ?_⟩
    · intro t ht
      simp only [List.mem_singleton] at ht
      subst ht
      decide
    · intro t ht
      simp only [List.mem_singleton] at ht
      subst ht
      rfl
  have hsize : ∀ n, records_write_size (Records.Template [⟨258, [⟨1, 4, none⟩]⟩])
      c7wstore c7fmt = .ok n → n ≤ 65531 := by
    intro n hn
    have he : records_write_size (Records.Template [⟨258, [⟨1, 4, none⟩]⟩])
        c7wstore c7fmt = .ok 8 := rfl
    rw [he] at hn
    injection hn with h8
    omega
  have h : MessageOk c7wstore c7fmt c7wmsg := by
    refine ⟨by decide, by decide, by decide, ?_⟩
    intro s hs
    simp only [c7wmsg, List.mem_singleton] at hs
    subst hs
    exact ⟨hrec, hsize⟩
  exact ⟨h, c7_written_length_accurate h⟩

end Ipfix
